import Mathlib

/-!
Shallow embedding of the badger-rs MANIFEST subsystem (src/manifest.rs) and of
the skiplist memtable (src/skl/mod.rs), with theorems settling the frozen
claims about them.

Bytes are modelled as natural numbers (writers only ever produce values < 256),
files as lists of bytes, and the machine-integer casts of the source
(`as u8`, `as u16`, `as u32`) as explicit `% 256`, `% 65536`, `% 4294967296`.
Panics (failed `assert!`, `unwrap()` on `None`, null-pointer dereference) are a
distinguished outcome, separate from returned errors.
-/

namespace BadgerSpec

/-- Big-endian u32 encoding, as written by `write_u32` (byteorder `BigEndian`). -/
def writeU32 (n : Nat) : List Nat :=
  [n / 16777216 % 256, n / 65536 % 256, n / 256 % 256, n % 256]

/-- Big-endian u64 encoding. -/
def writeU64 (n : Nat) : List Nat :=
  [n / 72057594037927936 % 256, n / 281474976710656 % 256,
   n / 1099511627776 % 256, n / 4294967296 % 256,
   n / 16777216 % 256, n / 65536 % 256, n / 256 % 256, n % 256]

/-- Big-endian u32 read (`read_u32::<BigEndian>`); `none` models the
`UnexpectedEof` error raised when fewer than 4 bytes remain. -/
def readU32 : List Nat → Option (Nat × List Nat)
  | a :: b :: c :: d :: rest => some (a * 16777216 + b * 65536 + c * 256 + d, rest)
  | _ => none

/-- Big-endian u64 read. -/
def readU64 : List Nat → Option (Nat × List Nat)
  | a :: b :: c :: d :: e :: f :: g :: h :: rest =>
      some (a * 72057594037927936 + b * 281474976710656 + c * 1099511627776 +
            d * 4294967296 + e * 16777216 + f * 65536 + g * 256 + h, rest)
  | _ => none

/-- One bit step of the reflected IEEE CRC32 (polynomial 0xEDB88320), as used
by the crc32fast crate (`crc32fast::hash`). -/
def crc32Step (c : Nat) : Nat :=
  if c % 2 = 1 then Nat.xor (c / 2) 3988292384 else c / 2

/-- Fold one byte into the running CRC. -/
def crc32Byte (c b : Nat) : Nat := crc32Step^[8] (Nat.xor c b)

/-- CRC32 (IEEE) of a byte sequence, the `crc32fast::hash` function. -/
def crc32 (data : List Nat) : Nat :=
  Nat.xor (data.foldl crc32Byte 4294967295) 4294967295

/-- The 4-byte magic "bdgr" (MAGIC_TEXT). -/
def MAGIC_TEXT : List Nat := [98, 100, 103, 114]

/-- MAGIC_VERSION. -/
def MAGIC_VERSION : Nat := 2

/-- A pb ManifestChange: fields Id (u64), Level (u32) and Op, where Op models
the raw i32 wire value carried by the protobuf EnumOrUnknown. -/
structure ManifestChange where
  Id : Nat
  Level : Nat
  Op : Nat
deriving DecidableEq, Repr

/-- Errors of the crate relevant here: BadMagic and Unexpected carry over from
src, IoEof stands for a propagated io UnexpectedEof error. -/
inductive MError where
  | BadMagic : MError
  | Unexpected : String → MError
  | IoEof : MError
deriving DecidableEq, Repr

/-- Outcome of applying changes: success, a returned error, or a panic
(failed assert! or unwrap() on None). -/
inductive ApplyRes where
  | ok : ApplyRes
  | err : MError → ApplyRes
  | panic : ApplyRes
deriving DecidableEq, Repr

/-- In-memory manifest: per-level id sets (LevelManifest.tables), the id -> level
map (tables, a HashMap modelled as an association list in insertion order;
the level value is stored through an `as u8` cast), and the two counters. -/
structure Manifest where
  levels : List (List Nat)
  tables : List (Nat × Nat)
  creations : Nat
  deletions : Nat
deriving DecidableEq, Repr

/-- Manifest::new. -/
def Manifest.new : Manifest := ⟨[], [], 0, 0⟩

/-- HashMap::contains_key on the id -> level map. -/
def tablesContains (t : List (Nat × Nat)) (id : Nat) : Bool :=
  t.any (fun p => p.1 == id)

/-- HashMap::insert of a key checked fresh just before. -/
def tablesInsert (t : List (Nat × Nat)) (id lvl : Nat) : List (Nat × Nat) :=
  t ++ [(id, lvl)]

/-- HashMap::remove by id (removing an absent id leaves the map unchanged). -/
def tablesRemove (t : List (Nat × Nat)) (id : Nat) : List (Nat × Nat) :=
  t.filter (fun p => p.1 ≠ id)

/-- HashSet::insert. -/
def setInsert (s : List Nat) (x : Nat) : List Nat :=
  if x ∈ s then s else s ++ [x]

/-- Modelled from the spec: the pb Operation enum of the missing generated
module src/pb/badgerpb3 has exactly the values CREATE = 0 and DELETE = 1, so
protobuf `Operation::from_i32` returns Some only on 0 and 1. -/
def Operation.from_i32 (v : Nat) : Option Nat :=
  if v = 0 ∨ v = 1 then some v else none

/-- Translation of apply_manifest_change (src/manifest.rs lines 327-371).
Returns the new state together with the outcome.  On `err` the state is
returned unchanged, matching the source (the CREATE duplicate check precedes
any mutation, and HashMap::remove of an absent id is the identity); on
`panic` the state component is irrelevant (the process aborts). -/
def apply_manifest_change (build : Manifest) (tc : ManifestChange) :
    Manifest × ApplyRes :=
  match Operation.from_i32 tc.Op with
  | none => (build, ApplyRes.panic)  -- Operation::from_i32(..).unwrap() on None
  | some op =>
    if op = 0 then
      -- Operation::CREATE
      if tablesContains build.tables tc.Id then
        (build, ApplyRes.err (MError.Unexpected
          ("MANIFEST invalid, table " ++ toString tc.Id ++ " exists")))
      else
        -- for _ in build.levels.len()..=tc.Level { push(default) }
        let levels := build.levels ++ List.replicate (tc.Level + 1 - build.levels.length) []
        let levels := levels.set tc.Level (setInsert (levels.getD tc.Level []) tc.Id)
        ({ build with
            levels := levels
            tables := tablesInsert build.tables tc.Id (tc.Level % 256)
            creations := build.creations + 1 }, ApplyRes.ok)
    else
      -- Operation::DELETE; note: the source never increments `deletions`
      if ¬ tablesContains build.tables tc.Id then
        (build, ApplyRes.err (MError.Unexpected
          ("MANIFEST removes non-existing table " ++ toString tc.Id)))
      else
        let tables := tablesRemove build.tables tc.Id
        match build.levels.get? tc.Level with
        | none => ({ build with tables := tables }, ApplyRes.panic)  -- get_mut(..).unwrap()
        | some lvlSet =>
          if tc.Id ∈ lvlSet then
            ({ build with
                tables := tables
                levels := build.levels.set tc.Level (lvlSet.filter (fun x => x ≠ tc.Id)) },
             ApplyRes.ok)
          else
            ({ build with tables := tables }, ApplyRes.panic)  -- assert!(has)

/-- Translation of apply_manifest_change_set: changes are applied one by one
to the shared state; the first failure stops the loop, leaving the already
applied prefix in place. -/
def apply_manifest_change_set (build : Manifest) (cs : List ManifestChange) :
    Manifest × ApplyRes :=
  match cs with
  | [] => (build, ApplyRes.ok)
  | c :: rest =>
    match apply_manifest_change build c with
    | (b2, ApplyRes.ok) => apply_manifest_change_set b2 rest
    | (b2, r) => (b2, r)

/-- Modelled from the spec: the ChangeSet codec of the missing generated
module src/pb/badgerpb3 is "a stable, length-prefixed schema codec" with
fields id : u64, level : u32, op enum; here one change is its three fields in
big-endian, and a set is a u64 count followed by the encoded changes. -/
def encodeChange (c : ManifestChange) : List Nat :=
  writeU64 c.Id ++ writeU32 c.Level ++ writeU32 c.Op

/-- Modelled from the spec: ManifestChangeSet::write_to_bytes. -/
def write_to_bytes (cs : List ManifestChange) : List Nat :=
  writeU64 cs.length ++ (cs.map encodeChange).flatten

/-- Decode a given number of changes, failing on truncation or trailing bytes. -/
def decodeChanges : Nat → List Nat → Option (List ManifestChange)
  | 0, [] => some []
  | 0, _ :: _ => none
  | n + 1, bs => do
    let (id, bs) ← readU64 bs
    let (lvl, bs) ← readU32 bs
    let (op, bs) ← readU32 bs
    let rest ← decodeChanges n bs
    return ⟨id, lvl, op⟩ :: rest

/-- Modelled from the spec: ManifestChangeSet::parse_from_bytes. -/
def parse_from_bytes (bs : List Nat) : Option (List ManifestChange) := do
  let (n, bs) ← readU64 bs
  decodeChanges n bs

/-- Result of replay_manifest_file. -/
inductive ReplayRes where
  | ok : Manifest → Nat → ReplayRes
  | error : MError → ReplayRes
  | panic : ReplayRes
deriving DecidableEq, Repr

theorem readU32_length {bs : List Nat} {n : Nat} {r : List Nat}
    (h : readU32 bs = some (n, r)) : bs.length = r.length + 4 := by
  rcases bs with _ | ⟨a, _ | ⟨b, _ | ⟨c, _ | ⟨d, t⟩⟩⟩⟩ <;>
    simp [readU32] at h <;> simp [h.2.symm]

/-- The record-reading loop of replay_manifest_file (lines 235-254): read a
length and a CRC (breaking at EOF per `is_eof`, modelled from the spec's
short-read rule), read the payload with `assert_eq!` on the read count
(panicking when fewer than `sz` bytes remain), check the CRC (breaking on
mismatch), parse and apply the set.  The fuel argument only bounds the number
of iterations; every iteration consumes at least 8 bytes of `rest`, so the
fuel `rest.length + 1` supplied by replay_manifest_file is never exhausted. -/
def replayLoop (fuel : Nat) (build : Manifest) (offset : Nat) (rest : List Nat) :
    ReplayRes :=
  match fuel with
  | 0 => ReplayRes.panic  -- unreachable with the canonical fuel
  | fuel + 1 =>
    match readU32 rest with
    | none => ReplayRes.ok build offset
    | some (sz, r1) =>
      match readU32 r1 with
      | none => ReplayRes.ok build offset
      | some (crc, r2) =>
        let buffer := r2.take sz
        if buffer.length ≠ sz then ReplayRes.panic  -- assert_eq!(sz, fp.read(&mut buffer)?)
        else if crc ≠ crc32 buffer then ReplayRes.ok build offset
        else
          match parse_from_bytes buffer with
          | none => ReplayRes.error MError.BadMagic  -- .map_err(|_| BadMagic)?
          | some mf_set =>
            match apply_manifest_change_set build mf_set with
            | (b2, ApplyRes.ok) => replayLoop fuel b2 (offset + 8 + sz) (r2.drop sz)
            | (_, ApplyRes.err e) => ReplayRes.error e
            | (_, ApplyRes.panic) => ReplayRes.panic

/-- Translation of Manifest::replay_manifest_file (lines 221-259): check the
magic bytes and version, then replay records from offset 8. -/
def replay_manifest_file (file : List Nat) : ReplayRes :=
  if file.length < 4 then ReplayRes.error MError.BadMagic
  else if file.take 4 ≠ MAGIC_TEXT then ReplayRes.error MError.BadMagic
  else
    match readU32 (file.drop 4) with
    | none => ReplayRes.error MError.IoEof
    | some (ver, rest) =>
      if ver ≠ MAGIC_VERSION then ReplayRes.error MError.BadMagic
      else replayLoop (rest.length + 1) Manifest.new 8 rest

/-- The DB directory as seen by the manifest code: contents of MANIFEST and
MANIFEST-REWRITE (none = absent). -/
structure DirState where
  manifestFile : Option (List Nat)
  rewriteFile : Option (List Nat)
deriving DecidableEq, Repr

/-- Manifest::as_changes (lines 302-312): a CREATE per live table, in the
iteration order of the map (here: insertion order of the association list). -/
def Manifest.as_changes (m : Manifest) : List ManifestChange :=
  m.tables.map (fun p => ⟨p.1, p.2, 0⟩)

/-- Translation of ManifestFile::help_rewrite (lines 105-145), tracking its
file-system effects step by step: open MANIFEST-REWRITE with truncate, write
magic + version + one snapshot record, sync, close, rename over MANIFEST, then
reopen MANIFEST — with `.truncate(true)`, which empties the file just renamed
into place. -/
def ManifestFile.help_rewrite (d : DirState) (m : Manifest) : DirState × Nat :=
  -- File::options().create(true).write(true).truncate(true).read(true).open(rewrite_path)
  let d1 : DirState := { d with rewriteFile := some [] }
  let net_creations := m.tables.length
  let mf_buffer := write_to_bytes m.as_changes
  let wt : List Nat := MAGIC_TEXT ++ writeU32 MAGIC_VERSION ++
    writeU32 (mf_buffer.length % 4294967296) ++ writeU32 (crc32 mf_buffer) ++ mf_buffer
  -- fp.write_all(&*wt.into_inner()); fp.sync_all(); drop(fp)
  let d2 : DirState := { d1 with rewriteFile := some (d1.rewriteFile.getD [] ++ wt) }
  -- rename(&rewrite_path, &manifest_path)
  let d3 : DirState := { d2 with manifestFile := d2.rewriteFile, rewriteFile := none }
  -- File::options().create(true).write(true).truncate(true).read(true).open(manifest_path)
  let d4 : DirState := { d3 with manifestFile := some [] }
  (d4, net_creations)

/-- Translation of Manifest::help_rewrite (lines 261-300); identical file
effects (it additionally calls sync_directory, which does not change any file
contents). -/
def Manifest.help_rewrite (d : DirState) (m : Manifest) : DirState × Nat :=
  let d1 : DirState := { d with rewriteFile := some [] }
  let net_creations := m.tables.length
  let mf_buffer := write_to_bytes m.as_changes
  let wt : List Nat := MAGIC_TEXT ++ writeU32 MAGIC_VERSION ++
    writeU32 (mf_buffer.length % 4294967296) ++ writeU32 (crc32 mf_buffer) ++ mf_buffer
  let d2 : DirState := { d1 with rewriteFile := some (d1.rewriteFile.getD [] ++ wt) }
  let d3 : DirState := { d2 with manifestFile := d2.rewriteFile, rewriteFile := none }
  let d4 : DirState := { d3 with manifestFile := some [] }
  (d4, net_creations)

/-- The in-memory part of a ManifestFile (the file contents live in DirState). -/
structure ManifestFileSt where
  deletions_rewrite_threshold : Nat
  manifest : Manifest
deriving DecidableEq, Repr

/-- Translation of ManifestFile::rewrite (lines 93-103). -/
def ManifestFile.rewrite (d : DirState) (mf : ManifestFileSt) :
    DirState × ManifestFileSt :=
  let p := ManifestFile.help_rewrite d mf.manifest
  (p.1, ⟨mf.deletions_rewrite_threshold,
    { mf.manifest with creations := p.2, deletions := 0 }⟩)

/-- Translation of ManifestFile::add_changes (lines 62-90): serialize the set,
apply it to the in-memory state (early `?` return on failure, before any byte
reaches the file), then either rewrite (per the shrink heuristic) or append
one length|crc|payload record. -/
def ManifestFile.add_changes (d : DirState) (mf : ManifestFileSt)
    (changes : List ManifestChange) : DirState × ManifestFileSt × ApplyRes :=
  let mf_buffer := write_to_bytes changes
  match apply_manifest_change_set mf.manifest changes with
  | (m2, ApplyRes.ok) =>
    if m2.deletions > mf.deletions_rewrite_threshold ∧
        m2.deletions > 10 * (m2.creations - m2.deletions) then
      -- self.rewrite()
      let p := ManifestFile.rewrite d { mf with manifest := m2 }
      (p.1, p.2, ApplyRes.ok)
    else
      let record := writeU32 (mf_buffer.length % 4294967296) ++
        writeU32 (crc32 mf_buffer) ++ mf_buffer
      ({ d with manifestFile := some (d.manifestFile.getD [] ++ record) },
       { mf with manifest := m2 }, ApplyRes.ok)
  | (m2, r) => (d, { mf with manifest := m2 }, r)

/-- Result of opening the manifest file. -/
inductive OpenRes where
  | ok : ManifestFileSt → OpenRes
  | error : MError → OpenRes
  | panic : OpenRes
deriving DecidableEq, Repr

/-- Translation of help_open_or_create_manifest_file (lines 378-415).  The
missing helper open_existing_synced_file is modelled from the spec: an absent
MANIFEST takes the create branch (fresh Manifest plus Manifest::help_rewrite,
threshold left at Default::default(), i.e. 0, as in the source), a present one
is replayed and truncated to the returned offset. -/
def help_open_or_create_manifest_file (d : DirState) (deletions_threshold : Nat) :
    DirState × OpenRes :=
  match d.manifestFile with
  | none =>
    let p := Manifest.help_rewrite d Manifest.new
    -- assert_eq!(net_creations, 0)
    if p.2 ≠ 0 then (p.1, OpenRes.panic)
    else (p.1, OpenRes.ok ⟨0, Manifest.new⟩)
  | some bytes =>
    match replay_manifest_file bytes with
    | ReplayRes.error e => (d, OpenRes.error e)
    | ReplayRes.panic => (d, OpenRes.panic)
    | ReplayRes.ok m off =>
      -- fp.set_len(trunc_offset); fp.seek(Start(0))
      ({ d with manifestFile := some (bytes.take off) },
       OpenRes.ok ⟨deletions_threshold, m⟩)

/-! ## Theorems about the manifest claims -/

/-- Step 1 of the C1 scenario: open a fresh directory. -/
def c1Step1 : DirState × OpenRes := help_open_or_create_manifest_file ⟨none, none⟩ 10000

/-- Step 2: one successful add_changes with CREATE(1,0); ManifestFile::close
only drops the file handle, so it does not change any file contents. -/
def c1Step2 : DirState × ManifestFileSt × ApplyRes :=
  ManifestFile.add_changes c1Step1.1 ⟨0, Manifest.new⟩ [⟨1, 0, 0⟩]

/-- C1: on the code as written, the round trip fails.  Opening a fresh
directory succeeds, a valid change-set is applied and appended successfully
and the in-memory state holds table 1 at level 0, but reopening the directory
returns BadMagic: help_rewrite reopens the just-renamed MANIFEST with
truncate(true), so the header is destroyed and the appended record starts the
file. -/
theorem claim_C1_roundtrip_fails :
    c1Step1.2 = OpenRes.ok ⟨0, Manifest.new⟩ ∧
    c1Step1.1.manifestFile = some [] ∧
    c1Step2.2.2 = ApplyRes.ok ∧
    c1Step2.2.1.manifest.tables = [(1, 0)] ∧
    (help_open_or_create_manifest_file c1Step2.1 10000).2 =
      OpenRes.error MError.BadMagic := by
  decide

/-- The payload of the single record of the C2 file. -/
def c2Payload : List Nat := write_to_bytes [⟨1, 0, 0⟩]

/-- A well-formed MANIFEST file: header followed by one valid record. -/
def c2File : List Nat :=
  MAGIC_TEXT ++ writeU32 MAGIC_VERSION ++
    writeU32 (c2Payload.length % 4294967296) ++ writeU32 (crc32 c2Payload) ++ c2Payload

set_option maxRecDepth 100000 in
/-- C2: replay of the intact file succeeds (so the file is made of a valid
header and valid records), but after truncating its final K = 1 byte the
replay panics on the assert_eq! guarding the payload read, instead of
stopping at the last intact record. -/
theorem claim_C2_truncation_panics :
    replay_manifest_file c2File = ReplayRes.ok ⟨[[1]], [(1, 0)], 1, 0⟩ 40 ∧
    replay_manifest_file (c2File.take (c2File.length - 1)) = ReplayRes.panic := by
  decide

/-- C3: applying CREATE(1,0) then DELETE(1,0) succeeds; afterwards
creations = 1 but deletions = 0 (the source never increments deletions) and
no table is live, so creations - deletions = 1 differs from the live count 0. -/
theorem claim_C3_deletions_not_counted :
    (apply_manifest_change_set Manifest.new [⟨1, 0, 0⟩, ⟨1, 0, 1⟩]).2 = ApplyRes.ok ∧
    (apply_manifest_change_set Manifest.new [⟨1, 0, 0⟩, ⟨1, 0, 1⟩]).1.creations = 1 ∧
    (apply_manifest_change_set Manifest.new [⟨1, 0, 0⟩, ⟨1, 0, 1⟩]).1.deletions = 0 ∧
    (apply_manifest_change_set Manifest.new [⟨1, 0, 0⟩, ⟨1, 0, 1⟩]).1.tables.length = 0 := by
  decide

/-- C4: after any rewrite the MANIFEST on disk is empty — help_rewrite reopens
the renamed file with truncate(true) — so it does not consist of the magic
header plus one snapshot record, and replaying it fails with BadMagic.  The
in-memory counters are indeed set to creations = live count, deletions = 0. -/
theorem claim_C4_rewrite_truncates (d : DirState) (mf : ManifestFileSt) :
    (ManifestFile.rewrite d mf).1.manifestFile = some [] ∧
    (ManifestFile.rewrite d mf).2.manifest.creations = mf.manifest.tables.length ∧
    (ManifestFile.rewrite d mf).2.manifest.deletions = 0 ∧
    replay_manifest_file [] = ReplayRes.error MError.BadMagic :=
  ⟨rfl, rfl, rfl, by decide⟩

/-- The manifest state holding table 1 at level 0. -/
def c7State : Manifest := (apply_manifest_change Manifest.new ⟨1, 0, 0⟩).1

/-- C7 counterexample: a DELETE whose id is present at a different level than
asserted does not return a corruption error — it panics (assert!/unwrap in the
DELETE arm), refuting the claim as stated. -/
theorem claim_C7_counterexample :
    (apply_manifest_change c7State ⟨1, 1, 1⟩).2 = ApplyRes.panic := by
  decide

/-- C7 amended: for a CREATE/DELETE change, apply_manifest_change succeeds
exactly when the change is a CREATE of a fresh id, or a DELETE of a present id
whose asserted level's set contains the id; it returns a corruption error
exactly for a duplicate CREATE or a DELETE of an absent id; and it panics
(rather than erroring) exactly for a DELETE of a present id whose asserted
level is out of range or whose level set does not contain the id. -/
theorem claim_C7_error_classification (m : Manifest) (c : ManifestChange)
    (hop : c.Op = 0 ∨ c.Op = 1) :
    ((apply_manifest_change m c).2 = ApplyRes.ok ↔
      (c.Op = 0 ∧ tablesContains m.tables c.Id = false) ∨
      (c.Op = 1 ∧ tablesContains m.tables c.Id = true ∧
        ∃ lvlSet, m.levels.get? c.Level = some lvlSet ∧ c.Id ∈ lvlSet)) ∧
    ((∃ e, (apply_manifest_change m c).2 = ApplyRes.err e) ↔
      (c.Op = 0 ∧ tablesContains m.tables c.Id = true) ∨
      (c.Op = 1 ∧ tablesContains m.tables c.Id = false)) ∧
    ((apply_manifest_change m c).2 = ApplyRes.panic ↔
      c.Op = 1 ∧ tablesContains m.tables c.Id = true ∧
        ¬ ∃ lvlSet, m.levels.get? c.Level = some lvlSet ∧ c.Id ∈ lvlSet) := by
  rcases hop with hop | hop
  · -- CREATE
    cases hct : tablesContains m.tables c.Id <;>
      simp [apply_manifest_change, Operation.from_i32, hop, hct]
  · -- DELETE
    cases hct : tablesContains m.tables c.Id
    · simp [apply_manifest_change, Operation.from_i32, hop, hct]
    · cases hget : m.levels[c.Level]? with
      | none => simp [apply_manifest_change, Operation.from_i32, hop, hct, hget]
      | some lvlSet =>
        by_cases hmem : c.Id ∈ lvlSet <;>
          simp [apply_manifest_change, Operation.from_i32, hop, hct, hget, hmem]

/-- Witness for the C7 amended theorem at CREATE(1,0) on the empty manifest. -/
theorem claim_C7_error_classification_witness :
    ((0 : Nat) = 0 ∨ (0 : Nat) = 1) ∧
    ((apply_manifest_change Manifest.new ⟨1, 0, 0⟩).2 = ApplyRes.ok ↔
      ((0 : Nat) = 0 ∧ tablesContains Manifest.new.tables 1 = false) ∨
      ((0 : Nat) = 1 ∧ tablesContains Manifest.new.tables 1 = true ∧
        ∃ lvlSet, Manifest.new.levels.get? 0 = some lvlSet ∧ 1 ∈ lvlSet)) :=
  ⟨Or.inl rfl,
    (claim_C7_error_classification Manifest.new ⟨1, 0, 0⟩ (Or.inl rfl)).1⟩

/-- When apply_manifest_change returns an error, the state is unchanged. -/
theorem apply_manifest_change_err_state (m : Manifest) (c : ManifestChange) (e : MError)
    (h : (apply_manifest_change m c).2 = ApplyRes.err e) :
    (apply_manifest_change m c).1 = m := by
  cases hop : Operation.from_i32 c.Op with
  | none => simp [apply_manifest_change, hop] at h
  | some op =>
    by_cases h0 : op = 0
    · cases hct : tablesContains m.tables c.Id
      · simp [apply_manifest_change, hop, h0, hct] at h
      · simp [apply_manifest_change, hop, h0, hct]
    · cases hct : tablesContains m.tables c.Id
      · simp [apply_manifest_change, hop, h0, hct]
      · cases hget : m.levels[c.Level]? with
        | none => simp [apply_manifest_change, hop, h0, hct, hget] at h
        | some lvlSet =>
          by_cases hmem : c.Id ∈ lvlSet <;>
            simp [apply_manifest_change, hop, h0, hct, hget, hmem] at h

/-- If a batch validates up to index i and fails at index i, applying the whole
batch yields the state of the applied prefix together with that error. -/
theorem apply_set_fail_at (cs : List ManifestChange) (m : Manifest) (e : MError) (i : Nat)
    (hi : i < cs.length)
    (hok : (apply_manifest_change_set m (cs.take i)).2 = ApplyRes.ok)
    (hfail : (apply_manifest_change ((apply_manifest_change_set m (cs.take i)).1)
        (cs.getD i ⟨0, 0, 0⟩)).2 = ApplyRes.err e) :
    apply_manifest_change_set m cs =
      ((apply_manifest_change_set m (cs.take i)).1, ApplyRes.err e) := by
  induction cs generalizing m i with
  | nil => simp at hi
  | cons c rest ih =>
    cases i with
    | zero =>
      simp only [List.take_zero, List.getD_cons_zero] at hok hfail ⊢
      have hm : apply_manifest_change_set m [] = (m, ApplyRes.ok) := rfl
      rw [hm] at hfail ⊢
      rcases happ : apply_manifest_change m c with ⟨b2, r⟩
      rw [happ] at hfail
      have hr : r = ApplyRes.err e := hfail
      subst hr
      have hb : b2 = m := by
        have h2 := apply_manifest_change_err_state m c e (by rw [happ])
        rw [happ] at h2
        exact h2
      subst hb
      simp [apply_manifest_change_set, happ]
    | succ i =>
      rcases happ : apply_manifest_change m c with ⟨b2, r⟩
      cases r with
      | ok =>
        have hok2 : (apply_manifest_change_set b2 (rest.take i)).2 = ApplyRes.ok := by
          simpa [List.take_succ_cons, apply_manifest_change_set, happ] using hok
        have hst : (apply_manifest_change_set m ((c :: rest).take (i + 1))).1 =
            (apply_manifest_change_set b2 (rest.take i)).1 := by
          simp [List.take_succ_cons, apply_manifest_change_set, happ]
        have hfail2 : (apply_manifest_change ((apply_manifest_change_set b2 (rest.take i)).1)
            (rest.getD i ⟨0, 0, 0⟩)).2 = ApplyRes.err e := by
          rw [hst] at hfail
          simpa [List.getD_cons_succ] using hfail
        have := ih b2 i (by simpa using hi) hok2 hfail2
        simp [apply_manifest_change_set, happ, List.take_succ_cons, this]
      | err e2 =>
        exfalso
        simp [List.take_succ_cons, apply_manifest_change_set, happ] at hok
      | panic =>
        exfalso
        simp [List.take_succ_cons, apply_manifest_change_set, happ] at hok

/-- C8 counterexample: the batch [CREATE(1,0), CREATE(1,0)] fails validation;
add_changes returns the error and writes no bytes, but the in-memory manifest
now holds table 1 — it is not left as it was before the call. -/
theorem claim_C8_counterexample :
    ManifestFile.add_changes ⟨some [], none⟩ ⟨10000, Manifest.new⟩
        [⟨1, 0, 0⟩, ⟨1, 0, 0⟩] =
      (⟨some [], none⟩, ⟨10000, ⟨[[1]], [(1, 0)], 1, 0⟩⟩,
        ApplyRes.err (MError.Unexpected "MANIFEST invalid, table 1 exists")) ∧
    (⟨[[1]], [(1, 0)], 1, 0⟩ : Manifest) ≠ Manifest.new := by
  exact ⟨by decide, by decide⟩

/-- C8 amended: when a batch fails validation at index i (all earlier changes
having validated), add_changes returns the error and no bytes are written to
any file, but the in-memory manifest is left holding the applied prefix of the
batch, not the state from before the call. -/
theorem claim_C8_failed_batch (d : DirState) (mf : ManifestFileSt)
    (cs : List ManifestChange) (e : MError) (i : Nat)
    (hi : i < cs.length)
    (hok : (apply_manifest_change_set mf.manifest (cs.take i)).2 = ApplyRes.ok)
    (hfail : (apply_manifest_change ((apply_manifest_change_set mf.manifest (cs.take i)).1)
        (cs.getD i ⟨0, 0, 0⟩)).2 = ApplyRes.err e) :
    ManifestFile.add_changes d mf cs =
      (d, { mf with manifest := (apply_manifest_change_set mf.manifest (cs.take i)).1 },
        ApplyRes.err e) := by
  have hset := apply_set_fail_at cs mf.manifest e i hi hok hfail
  simp [ManifestFile.add_changes, hset]

/-- Witness for claim_C8_failed_batch: the concrete failing batch
[CREATE(1,0), CREATE(1,0)] with i = 1. -/
theorem claim_C8_failed_batch_witness :
    ManifestFile.add_changes ⟨some [], none⟩ ⟨10000, Manifest.new⟩
        [⟨1, 0, 0⟩, ⟨1, 0, 0⟩] =
      (⟨some [], none⟩,
       { deletions_rewrite_threshold := 10000,
         manifest := (apply_manifest_change_set Manifest.new
           ([(⟨1, 0, 0⟩ : ManifestChange), ⟨1, 0, 0⟩].take 1)).1 },
       ApplyRes.err (MError.Unexpected "MANIFEST invalid, table 1 exists")) :=
  claim_C8_failed_batch ⟨some [], none⟩ ⟨10000, Manifest.new⟩
    [⟨1, 0, 0⟩, ⟨1, 0, 0⟩] (MError.Unexpected "MANIFEST invalid, table 1 exists") 1
    (by decide) (by decide) (by decide)

theorem writeU32_readU32 (n : Nat) (rest : List Nat) :
    readU32 (writeU32 n ++ rest) = some (n % 4294967296, rest) := by
  simp [writeU32, readU32]
  omega

theorem writeU64_readU64 (n : Nat) (rest : List Nat) :
    readU64 (writeU64 n ++ rest) = some (n % 18446744073709551616, rest) := by
  simp [writeU64, readU64]
  omega

theorem crc32Step_lt (c : Nat) (h : c < 4294967296) : crc32Step c < 4294967296 := by
  unfold crc32Step
  split
  · have h1 : c / 2 < 2 ^ 32 := by omega
    have h2 : (3988292384 : Nat) < 2 ^ 32 := by norm_num
    simpa using Nat.xor_lt_two_pow h1 h2
  · omega

theorem crc32Step_iter_lt (k c : Nat) (h : c < 4294967296) :
    crc32Step^[k] c < 4294967296 := by
  induction k generalizing c with
  | zero => simpa using h
  | succ k ih =>
    rw [Function.iterate_succ_apply]
    exact ih _ (crc32Step_lt c h)

theorem crc32Byte_lt (c b : Nat) (hc : c < 4294967296) (hb : b < 4294967296) :
    crc32Byte c b < 4294967296 := by
  unfold crc32Byte
  refine crc32Step_iter_lt 8 _ ?_
  have h1 : c < 2 ^ 32 := by simpa using hc
  have h2 : b < 2 ^ 32 := by simpa using hb
  simpa using Nat.xor_lt_two_pow h1 h2

theorem crc32_foldl_lt (l : List Nat) (c : Nat) (hc : c < 4294967296)
    (h : ∀ b ∈ l, b < 256) : l.foldl crc32Byte c < 4294967296 := by
  induction l generalizing c with
  | nil => simpa using hc
  | cons b t ih =>
    simp only [List.foldl_cons]
    refine ih _ (crc32Byte_lt c b hc ?_) (fun x hx => h x (by simp [hx]))
    have := h b (by simp)
    omega

theorem crc32_lt (l : List Nat) (h : ∀ b ∈ l, b < 256) : crc32 l < 4294967296 := by
  unfold crc32
  have h1 : l.foldl crc32Byte 4294967295 < 2 ^ 32 := by
    simpa using crc32_foldl_lt l 4294967295 (by norm_num) h
  have h2 : (4294967295 : Nat) < 2 ^ 32 := by norm_num
  simpa using Nat.xor_lt_two_pow h1 h2

theorem writeU32_bytes_lt (n : Nat) : ∀ b ∈ writeU32 n, b < 256 := by
  simp [writeU32]
  omega

theorem writeU64_bytes_lt (n : Nat) : ∀ b ∈ writeU64 n, b < 256 := by
  simp [writeU64]
  omega

theorem write_to_bytes_bytes_lt (cs : List ManifestChange) :
    ∀ b ∈ write_to_bytes cs, b < 256 := by
  intro b hb
  simp only [write_to_bytes, List.mem_append, List.mem_flatten, List.mem_map] at hb
  rcases hb with hb | ⟨l, ⟨c, _, hc⟩, hb⟩
  · exact writeU64_bytes_lt _ b hb
  · subst hc
    simp only [encodeChange, List.mem_append] at hb
    rcases hb with (hb | hb) | hb
    · exact writeU64_bytes_lt _ b hb
    · exact writeU32_bytes_lt _ b hb
    · exact writeU32_bytes_lt _ b hb

theorem writeU32_readU32_nil (n : Nat) :
    readU32 (writeU32 n) = some (n % 4294967296, []) := by
  simpa using writeU32_readU32 n []

/-- Decoding one more encoded change. -/
theorem decodeChanges_cons (n : Nat) (c : ManifestChange) (bs : List Nat)
    (l : List ManifestChange)
    (hid : c.Id < 18446744073709551616) (hl : c.Level < 4294967296)
    (ho : c.Op < 4294967296)
    (h : decodeChanges n bs = some l) :
    decodeChanges (n + 1) (encodeChange c ++ bs) = some (c :: l) := by
  simp only [decodeChanges, encodeChange, List.append_assoc, Option.bind_eq_bind]
  rw [writeU64_readU64]
  simp only [Nat.mod_eq_of_lt hid, Option.some_bind]
  rw [writeU32_readU32]
  simp only [Nat.mod_eq_of_lt hl, Option.some_bind]
  rw [writeU32_readU32]
  simp only [Nat.mod_eq_of_lt ho, Option.some_bind, h]
  rfl

/-- Round trip of the modelled codec on a single in-range change. -/
theorem parse_single (c : ManifestChange) (hid : c.Id < 18446744073709551616)
    (hl : c.Level < 4294967296) (ho : c.Op < 4294967296) :
    parse_from_bytes (write_to_bytes [c]) = some [c] := by
  have hdec : decodeChanges (0 + 1) (encodeChange c ++ []) = some [c] :=
    decodeChanges_cons 0 c [] [] hid hl ho rfl
  simp only [write_to_bytes, List.map_cons, List.map_nil, List.flatten_cons,
    List.flatten_nil, List.append_nil, parse_from_bytes, List.length_cons,
    List.length_nil, zero_add, Option.bind_eq_bind]
  rw [writeU64_readU64]
  simp only [Option.some_bind, Nat.reduceMod]
  simpa using hdec

theorem write_to_bytes_single_length (c : ManifestChange) :
    (write_to_bytes [c]).length = 24 := by
  simp [write_to_bytes, encodeChange, writeU64, writeU32]

/-- A MANIFEST file made of the header followed by one record whose payload
encodes the single change c. -/
def fileWithChange (c : ManifestChange) : List Nat :=
  MAGIC_TEXT ++ writeU32 MAGIC_VERSION ++
    writeU32 ((write_to_bytes [c]).length % 4294967296) ++
    writeU32 (crc32 (write_to_bytes [c])) ++ write_to_bytes [c]

/-- Replaying a file with a good header runs the record loop from offset 8. -/
theorem replay_header (rest : List Nat) :
    replay_manifest_file (MAGIC_TEXT ++ (writeU32 MAGIC_VERSION ++ rest)) =
      replayLoop (rest.length + 1) Manifest.new 8 rest := by
  have hmt : MAGIC_TEXT.length = 4 := rfl
  have htake : (MAGIC_TEXT ++ (writeU32 MAGIC_VERSION ++ rest)).take 4 = MAGIC_TEXT :=
    List.take_left' hmt
  have hdrop : (MAGIC_TEXT ++ (writeU32 MAGIC_VERSION ++ rest)).drop 4 =
      writeU32 MAGIC_VERSION ++ rest := List.drop_left' hmt
  have hlen : ¬ (MAGIC_TEXT ++ (writeU32 MAGIC_VERSION ++ rest)).length < 4 := by
    simp [MAGIC_TEXT]
  rw [replay_manifest_file, if_neg hlen, htake, hdrop, writeU32_readU32]
  simp [MAGIC_VERSION]

/-- C10: a change whose op is neither 0 (CREATE) nor 1 (DELETE) makes
apply_manifest_change panic — Operation::from_i32 returns None and unwrap()
aborts — rather than return an error; hence add_changes on such a change
panics, and so does replaying a file containing a record with it. -/
theorem claim_C10_unknown_op_panics (m : Manifest) (c : ManifestChange)
    (d : DirState) (mf : ManifestFileSt)
    (hop : 2 ≤ c.Op) (hid : c.Id < 18446744073709551616)
    (hl : c.Level < 4294967296) (ho : c.Op < 4294967296) :
    (apply_manifest_change m c).2 = ApplyRes.panic ∧
    (ManifestFile.add_changes d mf [c]).2.2 = ApplyRes.panic ∧
    replay_manifest_file (fileWithChange c) = ReplayRes.panic := by
  have hfrom : Operation.from_i32 c.Op = none := by
    simp only [Operation.from_i32, ite_eq_right_iff]
    omega
  have happly : ∀ m0 : Manifest, (apply_manifest_change m0 c).2 = ApplyRes.panic := by
    intro m0
    simp [apply_manifest_change, hfrom]
  have hset : ∀ m0 : Manifest, (apply_manifest_change_set m0 [c]).2 = ApplyRes.panic := by
    intro m0
    rcases happ : apply_manifest_change m0 c with ⟨b2, r⟩
    have hr : r = ApplyRes.panic := by
      have h2 := happly m0
      rw [happ] at h2
      exact h2
    subst hr
    simp [apply_manifest_change_set, happ]
  refine ⟨happly m, ?_, ?_⟩
  · rcases hs : apply_manifest_change_set mf.manifest [c] with ⟨b2, r⟩
    have hr : r = ApplyRes.panic := by
      have h2 := hset mf.manifest
      rw [hs] at h2
      exact h2
    subst hr
    simp [ManifestFile.add_changes, hs]
  · have hlen24 : (write_to_bytes [c]).length = 24 := write_to_bytes_single_length c
    have hcrc : crc32 (write_to_bytes [c]) < 4294967296 :=
      crc32_lt _ (write_to_bytes_bytes_lt [c])
    have hfile : fileWithChange c = MAGIC_TEXT ++ (writeU32 MAGIC_VERSION ++
        (writeU32 ((write_to_bytes [c]).length % 4294967296) ++
          (writeU32 (crc32 (write_to_bytes [c])) ++ write_to_bytes [c]))) := by
      simp [fileWithChange, List.append_assoc]
    rw [hfile, replay_header]
    rw [replayLoop, writeU32_readU32]
    simp only [hlen24, Nat.reduceMod]
    rw [writeU32_readU32]
    simp only [Nat.mod_eq_of_lt hcrc]
    have htk : (write_to_bytes [c]).take 24 = write_to_bytes [c] := by
      rw [← hlen24]
      exact List.take_length _
    simp only [htk, hlen24, ne_eq, not_true_eq_false, if_false, reduceIte,
      parse_single c hid hl ho]
    rcases hs2 : apply_manifest_change_set Manifest.new [c] with ⟨b2, r⟩
    have hr : r = ApplyRes.panic := by
      have h2 := hset Manifest.new
      rw [hs2] at h2
      exact h2
    subst hr
    rfl

/-- Witness for claim_C10_unknown_op_panics at the change (Id 1, Level 0, Op 2). -/
theorem claim_C10_unknown_op_panics_witness :
    (apply_manifest_change Manifest.new ⟨1, 0, 2⟩).2 = ApplyRes.panic ∧
    (ManifestFile.add_changes ⟨some [], none⟩ ⟨10000, Manifest.new⟩
      [⟨1, 0, 2⟩]).2.2 = ApplyRes.panic ∧
    replay_manifest_file (fileWithChange ⟨1, 0, 2⟩) = ReplayRes.panic :=
  claim_C10_unknown_op_panics Manifest.new ⟨1, 0, 2⟩ ⟨some [], none⟩
    ⟨10000, Manifest.new⟩ (by decide) (by norm_num) (by norm_num) (by norm_num)

end BadgerSpec

/-!
Shallow embedding of the skiplist of src/skl/mod.rs, sequentially (one thread):
atomic loads/stores/CAS become plain reads and writes, and a CAS succeeds
exactly when the stored value still equals the expected one.  The arena
(src/skl/arena.rs is not under src/) is modelled from the spec's C1 contract:
a bump allocator handing out offsets ≥ 1 with 0 as the null sentinel;
here nodes, keys and values live in three append-only lists and an offset is
the index + 1.  Null pointers are offset 0.  Panics and undefined behaviour
(unwrap of None, a failed assert!) make the operation return none.
-/

namespace Skl

def MAX_HEIGHT : Nat := 20

/-- HEIGHT_INCREASE = u32::MAX / 3. -/
def HEIGHT_INCREASE : Nat := 4294967295 / 3

/-- Modelled from the spec: y::ValueStruct (y.rs is not under src/) is the raw
value bytes plus a meta byte, a user-meta byte and a 64-bit version field. -/
structure ValueStruct where
  meta : Nat
  user_meta : Nat
  cas_counter : Nat
  value : List Nat
deriving DecidableEq, Repr, Inhabited

/-- A skiplist node: key offset and size (u16), tower height (u16), the packed
64-bit value slot, and the tower of MAX_HEIGHT u32 next-offsets. -/
structure Node where
  key_offset : Nat
  key_size : Nat
  height : Nat
  value : Nat
  tower : List Nat
deriving DecidableEq, Repr

/-- Node::default. -/
def Node.default : Node := ⟨0, 0, 0, 0, List.replicate MAX_HEIGHT 0⟩

instance : Inhabited Node := ⟨Node.default⟩

/-- Node::decode_value: low 32 bits = offset, next 16 bits = size. -/
def Node.decode_value (v : Nat) : Nat × Nat :=
  (v % 4294967296, v / 4294967296 % 65536)

/-- Node::encode_value: ((size as u64) << 32) | offset. -/
def Node.encode_value (value_offset value_size : Nat) : Nat :=
  value_size % 65536 * 4294967296 + value_offset % 4294967296

/-- Modelled from the spec: the arena's three kinds of allocations as three
append-only stores; an offset is the index + 1 (offset 0 is the null
sentinel, per the spec's C1 contract). -/
structure Arena where
  nodes : List Node
  keys : List (List Nat)
  vals : List ValueStruct
deriving DecidableEq, Repr

/-- Arena::new (the capacity parameter of the source is not modelled; the
spec's capacity-exhaustion failure is out of scope of the claims). -/
def Arena.new : Arena := ⟨[], [], []⟩

/-- Modelled from the spec: allocate_node. -/
def Arena.put_node (a : Arena) : Arena × Nat :=
  ({ a with nodes := a.nodes ++ [Node.default] }, a.nodes.length + 1)

/-- Modelled from the spec: get_node; none for the null offset 0 (or an
unallocated offset). -/
def Arena.get_node (a : Arena) (off : Nat) : Option Node :=
  if off = 0 then none else a.nodes.get? (off - 1)

/-- Modelled from the spec: put_key. -/
def Arena.put_key (a : Arena) (k : List Nat) : Arena × Nat :=
  ({ a with keys := a.keys ++ [k] }, a.keys.length + 1)

/-- Modelled from the spec: get_key returns `sz` bytes starting at the
offset — a prefix of the stored key when `sz` is smaller than its length. -/
def Arena.get_key (a : Arena) (off sz : Nat) : List Nat :=
  (a.keys.getD (off - 1) []).take sz

/-- Modelled from the spec: put_val returns (offset, encoded size); the value
layout is the bytes plus 10 bytes of metadata. -/
def Arena.put_val (a : Arena) (v : ValueStruct) : Arena × Nat × Nat :=
  ({ a with vals := a.vals ++ [v] }, a.vals.length + 1, v.value.length + 10)

/-- Modelled from the spec: get_value(offset, size) decodes a ValueStruct from
the `size`-byte view at the offset: the 10 header bytes (meta, user-meta and
the 64-bit version) followed by the remaining size - 10 value bytes.  When the
slot's u16-truncated size is smaller than the stored encoding, the view — and
with it the value — is truncated. -/
def Arena.get_val (a : Arena) (off sz : Nat) : ValueStruct :=
  let w := a.vals.getD (off - 1) default
  { w with value := w.value.take (sz - 10) }

/-- Translation of Node::new (lines 67-84): allocate, copy the key
(key_size = key.len() as u16), store the value, set the height. -/
def Node.newIn (a : Arena) (key : List Nat) (v : ValueStruct) (height : Nat) :
    Arena × Nat :=
  let p1 := a.put_node
  let p2 := p1.1.put_key key
  let p3 := p2.1.put_val v
  let nd : Node := { Node.default with
    key_offset := p2.2
    key_size := key.length % 65536
    value := Node.encode_value p3.2.1 p3.2.2
    height := height }
  ({ p3.1 with nodes := p3.1.nodes.set (p1.2 - 1) nd }, p1.2)

/-- The skiplist: current height, offset of the head sentinel, arena.
The refcount is not modelled (no claim concerns the lifecycle). -/
structure SkipList where
  height : Nat
  head : Nat
  arena : Arena
deriving DecidableEq, Repr

/-- The node stored at an offset (meaningful only for allocated offsets). -/
def SkipList.nodeAt (s : SkipList) (off : Nat) : Node :=
  if off = 0 then Node.default else s.arena.nodes.getD (off - 1) Node.default

/-- Overwrite the node at an offset. -/
def SkipList.setNode (s : SkipList) (off : Nat) (n : Node) : SkipList :=
  { s with arena := { s.arena with nodes := s.arena.nodes.set (off - 1) n } }

/-- Node::set_value on the node at `off` (used by the overwrite paths):
put_val then an atomic store of the re-encoded slot. -/
def SkipList.setNodeValue (s : SkipList) (off : Nat) (v : ValueStruct) : SkipList :=
  let p := s.arena.put_val v
  let nd := s.nodeAt off
  let nd2 : Node := { nd with value := Node.encode_value p.2.1 p.2.2 }
  { s with arena := { p.1 with nodes := p.1.nodes.set (off - 1) nd2 } }

/-- Node::get_next_offset: tower[h] (an atomic load). -/
def SkipList.get_next_off (s : SkipList) (off lvl : Nat) : Nat :=
  (s.nodeAt off).tower.getD lvl 0

/-- SkipList::get_next: arena.get_node of the tower entry, as an offset. -/
def SkipList.get_next (s : SkipList) (off lvl : Nat) : Option Nat :=
  if (s.arena.get_node (s.get_next_off off lvl)).isSome then
    some (s.get_next_off off lvl)
  else none

/-- Node::key via the arena. -/
def SkipList.key_of (s : SkipList) (off : Nat) : List Nat :=
  s.arena.get_key (s.nodeAt off).key_offset (s.nodeAt off).key_size

/-- Rust byte-slice comparison: lexicographic with length tie-break. -/
def compareBytes : List Nat → List Nat → Ordering
  | [], [] => Ordering.eq
  | [], _ :: _ => Ordering.lt
  | _ :: _, [] => Ordering.gt
  | a :: xs, b :: ys =>
    if a < b then Ordering.lt
    else if b < a then Ordering.gt
    else compareBytes xs ys

/-- The loop of SkipList::find_near (lines 224-295).  The fuel only bounds the
iteration count; find_near supplies enough for any well-formed list (each step
either descends a level or moves right to a strictly greater key). -/
def findNearAux (s : SkipList) (key : List Nat) (less allow_equal : Bool) :
    Nat → Nat → Nat → Option Nat × Bool
  | 0, _, _ => (none, false)
  | fuel + 1, x, level =>
    match s.get_next x level with
    | none =>
      if 0 < level then findNearAux s key less allow_equal fuel x (level - 1)
      else if !less then (none, false)
      else if x = s.head then (none, false)
      else (some x, false)
    | some nxt =>
      match compareBytes key (s.key_of nxt) with
      | Ordering.gt => findNearAux s key less allow_equal fuel nxt level
      | Ordering.eq =>
        if allow_equal then (some nxt, true)
        else if !less then (s.get_next nxt 0, false)
        else if 0 < level then findNearAux s key less allow_equal fuel x (level - 1)
        else if x = s.head then (none, false)
        else (some x, false)
      | Ordering.lt =>
        if 0 < level then findNearAux s key less allow_equal fuel x (level - 1)
        else if !less then (some nxt, false)
        else if x = s.head then (none, false)
        else (some x, false)

/-- Fuel sufficient for every walk on a well-formed list. -/
def SkipList.walkFuel (s : SkipList) : Nat :=
  (s.arena.nodes.length + 2) * (MAX_HEIGHT + 1)

/-- SkipList::find_near. -/
def SkipList.find_near (s : SkipList) (key : List Nat) (less allow_equal : Bool) :
    Option Nat × Bool :=
  findNearAux s key less allow_equal s.walkFuel s.head (s.height - 1)

/-- The loop of SkipList::find_splice_for_level (lines 301-327). -/
def findSpliceAux (s : SkipList) (key : List Nat) :
    Nat → Nat → Nat → Nat × Option Nat
  | 0, before, _ => (before, none)
  | fuel + 1, before, level =>
    match s.get_next before level with
    | none => (before, none)
    | some nxt =>
      match compareBytes key (s.key_of nxt) with
      | Ordering.eq => (nxt, some nxt)
      | Ordering.lt => (before, some nxt)
      | Ordering.gt => findSpliceAux s key fuel nxt level

/-- SkipList::find_splice_for_level. -/
def SkipList.find_splice_for_level (s : SkipList) (key : List Nat)
    (before level : Nat) : Nat × Option Nat :=
  findSpliceAux s key s.walkFuel before level

/-- SkipList::random_height (lines 477-483): h starts at 1 and grows while
h < MAX_HEIGHT and the next u32 draw is ≤ HEIGHT_INCREASE.  The draws are an
input; an exhausted list behaves as a draw above the threshold. -/
def randomHeightAux : Nat → Nat → List Nat → Nat
  | h, 0, _ => h
  | h, fuel + 1, rng =>
    if h < MAX_HEIGHT then
      match rng with
      | r :: rest =>
        if r % 4294967296 ≤ HEIGHT_INCREASE then randomHeightAux (h + 1) fuel rest
        else h
      | [] => h
    else h

/-- SkipList::random_height with an explicit stream of random u32 draws. -/
def random_height (rng : List Nat) : Nat := randomHeightAux 1 MAX_HEIGHT rng

/-- SkipList::new (lines 168-178): the head sentinel is a MAX_HEIGHT node with
the empty key and a default value; the list height starts at 1. -/
def SkipList.new (_arena_size : Nat) : SkipList :=
  let p := Node.newIn Arena.new [] default MAX_HEIGHT
  { height := 1, head := p.2, arena := p.1 }

/-- Result of the first pass of _put (lines 343-360). -/
inductive Pass1Res where
  | panic : Pass1Res
  | done : SkipList → Pass1Res
  | cont : List Nat → List Nat → Pass1Res
deriving DecidableEq, Repr

/-- The first pass of _put: walk levels list_height-1 .. 0, splicing from the
previous level's prev.  On an equality collapse the source calls
prev[i].as_ref().unwrap().set_value(..) — but prev[i] has not been assigned
yet in that iteration, so it still holds the initial null and the unwrap()
panics.  The counter argument is the number of levels left to process
(processing level cnt-1 next). -/
def putPass1 (s : SkipList) (key : List Nat) (v : ValueStruct) :
    Nat → List Nat → List Nat → Pass1Res
  | 0, prev, next => Pass1Res.cont prev next
  | cnt + 1, prev, next =>
    let i := cnt
    let cur := prev.getD (i + 1) 0
    let sp := s.find_splice_for_level key cur i
    match sp.2 with
    | some nxt =>
      if sp.1 = nxt then
        if prev.getD i 0 = 0 then Pass1Res.panic
        else Pass1Res.done (s.setNodeValue (prev.getD i 0) v)
      else putPass1 s key v cnt (prev.set i sp.1) (next.set i nxt)
    | none => putPass1 s key v cnt (prev.set i sp.1) next

/-- Result of linking one level (the inner loop of lines 385-426). -/
inductive LinkStep where
  | panic : LinkStep
  | done : SkipList → LinkStep
  | linked : SkipList → List Nat → List Nat → LinkStep
deriving DecidableEq, Repr

/-- One level of the linking loop of _put.  The fuel bounds CAS retries (the
CAS of a sequential execution succeeds at the first attempt).  A null prev[i]
(level above the old list height) is recomputed from the head; a none next
there hits next[i] = _next.unwrap() and panics, as does the assert that the
splice did not collapse.  On CAS failure the splice is recomputed from
prev[i]; equality there is only legal at the base level (assert_eq!(i, 0))
and overwrites the value. -/
def linkLoop (key : List Nat) (v : ValueStruct) (xoff i : Nat) :
    Nat → SkipList → List Nat → List Nat → LinkStep
  | 0, _, _, _ => LinkStep.panic
  | fuel + 1, s, prev, next =>
    let resolved : Option (List Nat × List Nat) :=
      if prev.getD i 0 = 0 then
        if i ≤ 1 then none  -- assert!(i > 1)
        else
          match s.find_splice_for_level key s.head i with
          | (_, none) => none  -- next[i] = _next.unwrap() on None
          | (pre, some nxt) =>
            if pre = nxt then none  -- assert!(!ptr::eq(prev[i], next[i]))
            else some (prev.set i pre, next.set i nxt)
      else some (prev, next)
    match resolved with
    | none => LinkStep.panic
    | some (prev, next) =>
      let next_offset := next.getD i 0
      let xnode := s.nodeAt xoff
      let s1 := s.setNode xoff
        { xnode with tower := xnode.tower.set i (next_offset % 4294967296) }
      let poff := prev.getD i 0
      let pnode := s1.nodeAt poff
      if pnode.tower.getD i 0 = next_offset % 4294967296 then
        LinkStep.linked
          (s1.setNode poff
            { pnode with tower := pnode.tower.set i (xoff % 4294967296) })
          prev next
      else
        match s1.find_splice_for_level key poff i with
        | (_, none) => LinkStep.panic  -- next[i] = _next.unwrap() on None
        | (pre, some nxt) =>
          if pre = nxt then
            if i ≠ 0 then LinkStep.panic  -- assert_eq!(i, 0)
            else LinkStep.done (s1.setNodeValue pre v)
          else linkLoop key v xoff i fuel s1 (prev.set i pre) (next.set i nxt)

/-- The outer linking loop (for i in 0..height); rem counts levels left. -/
def linkLevels (key : List Nat) (v : ValueStruct) (xoff : Nat) :
    Nat → Nat → SkipList → List Nat → List Nat → Option SkipList
  | 0, _, s, _, _ => some s
  | rem + 1, i, s, prev, next =>
    match linkLoop key v xoff i (s.walkFuel + 1) s prev next with
    | LinkStep.panic => none
    | LinkStep.done s2 => some s2
    | LinkStep.linked s2 prev2 next2 => linkLevels key v xoff rem (i + 1) s2 prev2 next2

/-- Translation of SkipList::_put (lines 339-427), sequentially, with the
random u32 draws as an input.  Returns none when the execution panics. -/
def SkipList.putH (s : SkipList) (key : List Nat) (v : ValueStruct)
    (rng : List Nat) : Option SkipList :=
  let list_height := s.height
  let prev := (List.replicate (MAX_HEIGHT + 1) 0).set list_height s.head
  let next := List.replicate (MAX_HEIGHT + 1) 0
  match putPass1 s key v list_height prev next with
  | Pass1Res.panic => none
  | Pass1Res.done s2 => some s2
  | Pass1Res.cont prev2 next2 =>
    let height := random_height rng
    let p := Node.newIn s.arena key v height
    let s2 : SkipList := { s with arena := p.1 }
    let s3 : SkipList := if s2.height < height then { s2 with height := height } else s2
    linkLevels key v p.2 height 0 s3 prev2 next2

/-- SkipList::get (lines 456-464): find_near(key, less = false,
allow_equal = true); when found, decode the value slot and materialize the
value.  find_near never reports found without a node, so the unwrap() of the
source cannot panic. -/
def SkipList.get (s : SkipList) (key : List Nat) : Option ValueStruct :=
  match s.find_near key false true with
  | (some nd, true) =>
    some (s.arena.get_val (Node.decode_value (s.nodeAt nd).value).1
      (Node.decode_value (s.nodeAt nd).value).2)
  | _ => none

/-- A sequence of puts from a fresh list; none as soon as one put panics. -/
def runPuts : SkipList → List (List Nat × ValueStruct × List Nat) → Option SkipList
  | s, [] => some s
  | s, (k, v, rng) :: rest =>
    match s.putH k v rng with
    | none => none
    | some s2 => runPuts s2 rest

/-- C5: a first put of "key1" succeeds (the height draw 4294967295 is above
HEIGHT_INCREASE, so the tower height is 1), but the second put of the same key
panics instead of overwriting: the first splice pass detects the equal key
and calls prev[i].as_ref().unwrap() while prev[i] still holds the initial
null pointer. -/
theorem claim_C5_duplicate_put_panics :
    ((SkipList.new 1024).putH [107, 101, 121, 49] ⟨55, 0, 60000, [118, 49]⟩
        [4294967295]).isSome = true ∧
    ((SkipList.new 1024).putH [107, 101, 121, 49] ⟨55, 0, 60000, [118, 49]⟩
        [4294967295]).bind
      (fun s1 => s1.putH [107, 101, 121, 49] ⟨56, 0, 60001, [118, 50]⟩ [4294967295]) =
      none := by
  decide

/-- Putting a key whose length is a nonzero multiple of 65536 into a fresh
list succeeds, but key_size = key.len() as u16 truncates to 0, so the stored
key is empty and the subsequent get walks past the node and misses. -/
theorem putH_truncated_key_lost (k : List Nat) (v : ValueStruct)
    (hne : k ≠ []) (hsz : k.length % 65536 = 0) :
    ((SkipList.new 1024).putH k v [4294967295]).bind (fun s1 => some (s1.get k)) =
      some none := by
  rcases k with _ | ⟨a, t⟩
  · simp at hne
  have hsz2 : (t.length + 1) % 65536 = 0 := by simpa using hsz
  simp [hsz2, SkipList.putH, SkipList.new, Node.newIn, Arena.new, Arena.put_node,
    Arena.put_key, Arena.put_val, Node.default, putPass1,
    SkipList.find_splice_for_level, findSpliceAux, SkipList.walkFuel,
    SkipList.get_next, SkipList.get_next_off, SkipList.nodeAt, Arena.get_node,
    random_height, randomHeightAux, HEIGHT_INCREASE, MAX_HEIGHT, linkLevels,
    linkLoop, SkipList.setNode, SkipList.get, SkipList.find_near, findNearAux,
    SkipList.key_of, Arena.get_key, compareBytes, Node.encode_value,
    Node.decode_value, Arena.get_val]

/-- C6 counterexample: after put of a 65536-byte key (which returns normally),
get of that key returns none, not the value just put. -/
theorem claim_C6_counterexample :
    ((SkipList.new 1024).putH (List.replicate 65536 9) ⟨1, 1, 1, [5]⟩
        [4294967295]).bind
      (fun s1 => some (s1.get (List.replicate 65536 9))) = some none :=
  putH_truncated_key_lost (List.replicate 65536 9) ⟨1, 1, 1, [5]⟩
    (by
      intro h
      have h2 := congrArg List.length h
      rw [List.length_replicate] at h2
      simp at h2)
    (by rw [List.length_replicate])

/-! ### Order lemmas for the byte comparison -/

theorem compareBytes_refl (x : List Nat) : compareBytes x x = Ordering.eq := by
  induction x with
  | nil => rfl
  | cons a t ih => simp [compareBytes, ih]

theorem compareBytes_eq {x y : List Nat}
    (h : compareBytes x y = Ordering.eq) : x = y := by
  induction x generalizing y with
  | nil =>
    cases y with
    | nil => rfl
    | cons b u => simp [compareBytes] at h
  | cons a t ih =>
    cases y with
    | nil => simp [compareBytes] at h
    | cons b u =>
      simp only [compareBytes] at h
      by_cases h1 : a < b
      · simp [h1] at h
      · by_cases h2 : b < a
        · simp [h1, h2] at h
        · have hab : a = b := Nat.le_antisymm (Nat.not_lt.mp h2) (Nat.not_lt.mp h1)
          subst hab
          simp only [Nat.lt_irrefl, if_false, reduceIte] at h
          rw [ih h]

theorem compareBytes_ne_of_lt {x y : List Nat}
    (h : compareBytes x y = Ordering.lt) : x ≠ y := by
  intro he
  subst he
  rw [compareBytes_refl] at h
  exact absurd h (by simp)

theorem compareBytes_gt_iff {x y : List Nat} :
    compareBytes x y = Ordering.gt ↔ compareBytes y x = Ordering.lt := by
  induction x generalizing y with
  | nil =>
    cases y with
    | nil => simp [compareBytes]
    | cons b u => simp [compareBytes]
  | cons a t ih =>
    cases y with
    | nil => simp [compareBytes]
    | cons b u =>
      simp only [compareBytes]
      by_cases h1 : a < b
      · have h2 : ¬ b < a := by omega
        simp [h1, h2]
      · by_cases h2 : b < a
        · simp [h1, h2]
        · simp [h1, h2, ih]

theorem compareBytes_lt_trans {x y z : List Nat}
    (h1 : compareBytes x y = Ordering.lt) (h2 : compareBytes y z = Ordering.lt) :
    compareBytes x z = Ordering.lt := by
  induction x generalizing y z with
  | nil =>
    cases z with
    | nil =>
      cases y with
      | nil => simpa [compareBytes] using h2
      | cons b u => simp [compareBytes] at h2
    | cons c w => simp [compareBytes]
  | cons a t ih =>
    cases y with
    | nil => simp [compareBytes] at h1
    | cons b u =>
      cases z with
      | nil => simp [compareBytes] at h2
      | cons c w =>
        simp only [compareBytes] at h1 h2 ⊢
        by_cases hab : a < b
        · by_cases hbc : b < c
          · have : a < c := Nat.lt_trans hab hbc
            simp [this]
          · by_cases hcb : c < b
            · simp [hab, hbc, hcb] at h2
            · have : b = c := by omega
              subst this
              simp [hab]
        · by_cases hba : b < a
          · simp [hab, hba] at h1
          · have : a = b := by omega
            subst this
            simp only [Nat.lt_irrefl, if_false, reduceIte] at h1
            by_cases hac : a < c
            · simp [hac]
            · by_cases hca : c < a
              · simp [hac, hca] at h2
              · have : a = c := by omega
                subst this
                simp only [Nat.lt_irrefl, if_false, reduceIte] at h2 ⊢
                exact ih h1 h2

/-! ### getD / set helpers for the prev and next arrays -/

theorem getD_set_self (l : List Nat) (i x : Nat) (h : i < l.length) :
    (l.set i x).getD i 0 = x := by
  simp [List.getD, List.getElem?_set_self, h]

theorem getD_set_ne (l : List Nat) (i j x : Nat) (h : i ≠ j) :
    (l.set i x).getD j 0 = l.getD j 0 := by
  simp [List.getD, List.getElem?_set_ne h]

/-! ### Bounds on random_height -/

theorem randomHeightAux_ge (fuel : Nat) :
    ∀ (h : Nat) (rng : List Nat), h ≤ randomHeightAux h fuel rng := by
  induction fuel with
  | zero => intro h rng; simp [randomHeightAux]
  | succ fuel ih =>
    intro h rng
    simp only [randomHeightAux]
    by_cases hh : h < MAX_HEIGHT
    · rw [if_pos hh]
      cases rng with
      | nil => exact Nat.le_refl h
      | cons r rest =>
        show h ≤ if r % 4294967296 ≤ HEIGHT_INCREASE then
          randomHeightAux (h + 1) fuel rest else h
        by_cases hr : r % 4294967296 ≤ HEIGHT_INCREASE
        · rw [if_pos hr]
          exact Nat.le_trans (Nat.le_succ h) (ih (h + 1) rest)
        · rw [if_neg hr]
    · rw [if_neg hh]

theorem randomHeightAux_le (fuel : Nat) :
    ∀ (h : Nat) (rng : List Nat), h ≤ MAX_HEIGHT →
      randomHeightAux h fuel rng ≤ MAX_HEIGHT := by
  induction fuel with
  | zero => intro h rng hh; simpa [randomHeightAux] using hh
  | succ fuel ih =>
    intro h rng hh
    simp only [randomHeightAux]
    by_cases hlt : h < MAX_HEIGHT
    · rw [if_pos hlt]
      cases rng with
      | nil => exact hh
      | cons r rest =>
        show (if r % 4294967296 ≤ HEIGHT_INCREASE then
          randomHeightAux (h + 1) fuel rest else h) ≤ MAX_HEIGHT
        by_cases hr : r % 4294967296 ≤ HEIGHT_INCREASE
        · rw [if_pos hr]
          exact ih (h + 1) rest (by omega)
        · rw [if_neg hr]; exact hh
    · rw [if_neg hlt]; exact hh

theorem random_height_pos (rng : List Nat) : 1 ≤ random_height rng :=
  randomHeightAux_ge MAX_HEIGHT 1 rng

theorem random_height_le (rng : List Nat) : random_height rng ≤ MAX_HEIGHT :=
  randomHeightAux_le MAX_HEIGHT 1 rng (by norm_num [MAX_HEIGHT])

/-! ### The well-formedness invariant of a sequential skiplist state -/

/-- An allocated node offset. -/
def validOff (s : SkipList) (off : Nat) : Prop :=
  1 ≤ off ∧ off ≤ s.arena.nodes.length

/-- The level-0 chain starting at tower value `start`: the offsets visited by
following tower[0] until the null offset. -/
def IsChain (s : SkipList) : Nat → List Nat → Prop
  | start, [] => start = 0
  | start, o :: rest => start = o ∧ validOff s o ∧ IsChain s (s.get_next_off o 0) rest

/-- Strict key order between two nodes. -/
def keyLt (s : SkipList) (a b : Nat) : Prop :=
  compareBytes (s.key_of a) (s.key_of b) = Ordering.lt

/-- Every tower link (any level) of the head or of a chain member is null or
lands in the chain, strictly forward in key order for non-head sources. -/
def LinksOk (s : SkipList) (C : List Nat) : Prop :=
  (∀ L, s.get_next_off s.head L = 0 ∨ s.get_next_off s.head L ∈ C) ∧
  (∀ o ∈ C, ∀ L, s.get_next_off o L = 0 ∨
    (s.get_next_off o L ∈ C ∧ keyLt s o (s.get_next_off o L)))

/-- Tower entries at or above the current list height are still null. -/
def HighZero (s : SkipList) (C : List Nat) : Prop :=
  ∀ o, (o = s.head ∨ o ∈ C) → ∀ L, s.height ≤ L → s.get_next_off o L = 0

/-- The chain-shaped part of the invariant, with the chain as a witness. -/
def ChainInv (s : SkipList) (C : List Nat) : Prop :=
  IsChain s (s.get_next_off s.head 0) C ∧
  List.Pairwise (keyLt s) C ∧
  (∀ o ∈ C, o ≠ s.head) ∧
  LinksOk s C ∧
  HighZero s C

/-- The full invariant of states reachable by sequential puts. -/
def Inv (s : SkipList) : Prop :=
  s.head = 1 ∧ validOff s s.head ∧ s.key_of s.head = [] ∧
  1 ≤ s.height ∧ s.height ≤ MAX_HEIGHT ∧
  (∀ off, validOff s off → (s.nodeAt off).tower.length = MAX_HEIGHT) ∧
  (∀ off, validOff s off → 1 ≤ (s.nodeAt off).key_offset ∧
    (s.nodeAt off).key_offset ≤ s.arena.keys.length) ∧
  ∃ C, ChainInv s C

theorem keyLt_irrefl (s : SkipList) (a : Nat) : ¬ keyLt s a a := by
  intro h
  rw [keyLt, compareBytes_refl] at h
  exact absurd h (by simp)

theorem keyLt_trans {s : SkipList} {a b c : Nat}
    (h1 : keyLt s a b) (h2 : keyLt s b c) : keyLt s a c :=
  compareBytes_lt_trans h1 h2

theorem keyLt_ne {s : SkipList} {a b : Nat} (h : keyLt s a b) : a ≠ b := by
  intro he
  subst he
  exact keyLt_irrefl s a h

theorem IsChain_mem_valid {s : SkipList} :
    ∀ {C : List Nat} {start : Nat}, IsChain s start C → ∀ o ∈ C, validOff s o := by
  intro C
  induction C with
  | nil => intro start _ o ho; simp at ho
  | cons c rest ih =>
    intro start hch o ho
    rcases hch with ⟨_, hv, hrest⟩
    rcases List.mem_cons.mp ho with h | h
    · subst h; exact hv
    · exact ih hrest o h

theorem IsChain_decomp {s : SkipList} :
    ∀ {l1 : List Nat} {start x : Nat} {l2 : List Nat},
      IsChain s start (l1 ++ x :: l2) → IsChain s (s.get_next_off x 0) l2 := by
  intro l1
  induction l1 with
  | nil =>
    intro start x l2 h
    exact h.2.2
  | cons c t ih =>
    intro start x l2 h
    exact ih h.2.2

theorem IsChain_head_eq {s : SkipList} {start x : Nat} {l2 : List Nat}
    (h : IsChain s start (x :: l2)) : start = x := h.1

theorem chain_nodup {s : SkipList} {C : List Nat}
    (hp : List.Pairwise (keyLt s) C) : C.Nodup :=
  hp.imp (fun h => keyLt_ne h)

theorem chain_length_le {s : SkipList} {C : List Nat} {start : Nat}
    (hch : IsChain s start C) (hp : List.Pairwise (keyLt s) C) :
    C.length ≤ s.arena.nodes.length := by
  have hnd : C.Nodup := chain_nodup hp
  have hsub : ∀ o ∈ C, o ∈ Finset.Icc 1 s.arena.nodes.length := by
    intro o ho
    have hv := IsChain_mem_valid hch o ho
    simp [Finset.mem_Icc, hv.1, hv.2]
  calc C.length = C.toFinset.card := (List.toFinset_card_of_nodup hnd).symm
    _ ≤ (Finset.Icc 1 s.arena.nodes.length).card := by
        apply Finset.card_le_card
        intro o ho
        exact hsub o (List.mem_toFinset.mp ho)
    _ = s.arena.nodes.length := by simp

/-- Splitting a chain member out of the chain, with everything after it
greater and everything before it smaller. -/
theorem chain_mem_split {C : List Nat} {o : Nat}
    (ho : o ∈ C) :
    ∃ l1 l2, C = l1 ++ o :: l2 := List.append_of_mem ho

theorem keyLt_asymm {s : SkipList} {a b : Nat}
    (h1 : keyLt s a b) (h2 : keyLt s b a) : False :=
  keyLt_irrefl s a (keyLt_trans h1 h2)

theorem pairwise_mem_rel {α : Type} {R : α → α → Prop} {C : List α}
    (hp : List.Pairwise R C) {a b : α} (ha : a ∈ C) (hb : b ∈ C)
    (hne : a ≠ b) : R a b ∨ R b a := by
  induction C with
  | nil => simp at ha
  | cons c t ih =>
    rcases List.pairwise_cons.mp hp with ⟨hc, ht⟩
    rcases List.mem_cons.mp ha with rfl | hat
    · rcases List.mem_cons.mp hb with rfl | hbt
      · exact absurd rfl hne
      · exact Or.inl (hc b hbt)
    · rcases List.mem_cons.mp hb with rfl | hbt
      · exact Or.inr (hc a hat)
      · exact ih ht hat hbt

theorem chain_key_inj {s : SkipList} {C : List Nat}
    (hp : List.Pairwise (keyLt s) C) {a b : Nat} (ha : a ∈ C) (hb : b ∈ C)
    (hk : s.key_of a = s.key_of b) : a = b := by
  by_contra hne
  rcases pairwise_mem_rel hp ha hb hne with h | h
  · rw [keyLt, hk, compareBytes_refl] at h
    exact absurd h (by simp)
  · rw [keyLt, hk, compareBytes_refl] at h
    exact absurd h (by simp)

/-! ### Membership of the walk cursor and the termination measure -/

/-- The cursor of a walk is the head or a chain member. -/
def onChain (s : SkipList) (C : List Nat) (o : Nat) : Prop :=
  o = s.head ∨ o ∈ C

/-- The cursor stands strictly before the query key (the head before
everything). -/
def rankLtKey (s : SkipList) (o : Nat) (k : List Nat) : Prop :=
  o = s.head ∨ compareBytes (s.key_of o) k = Ordering.lt

instance keyLtDecidable (s : SkipList) (a b : Nat) : Decidable (keyLt s a b) :=
  inferInstanceAs (Decidable (compareBytes (s.key_of a) (s.key_of b) = Ordering.lt))

/-- Number of chain members strictly after the cursor. -/
def countAfter (s : SkipList) (C : List Nat) (o : Nat) : Nat :=
  if o = s.head then C.length
  else (C.filter (fun b => decide (keyLt s o b))).length

theorem countAfter_le (s : SkipList) (C : List Nat) (o : Nat) :
    countAfter s C o ≤ C.length := by
  unfold countAfter
  split
  · exact Nat.le_refl _
  · exact List.length_filter_le _ _

theorem countP_lt_of {α : Type} (l : List α) (p q : α → Bool)
    (hmono : ∀ a ∈ l, p a = true → q a = true)
    (a : α) (ha : a ∈ l) (hqa : q a = true) (hpa : ¬ p a = true) :
    l.countP p < l.countP q := by
  induction l with
  | nil => simp at ha
  | cons b t ih =>
    have hmt : ∀ x ∈ t, p x = true → q x = true :=
      fun x hx => hmono x (List.mem_cons_of_mem b hx)
    have hle : t.countP p ≤ t.countP q := List.countP_mono_left hmt
    rw [List.countP_cons, List.countP_cons]
    rcases List.mem_cons.mp ha with rfl | hat
    · simp only [Bool.not_eq_true] at hpa
      simp [hpa, hqa]
      omega
    · have hlt : t.countP p < t.countP q := ih hmt hat
      by_cases hb : p b = true
      · have hqb := hmono b (List.mem_cons_self b t) hb
        simp [hb, hqb]
        omega
      · simp only [Bool.not_eq_true] at hb
        simp only [hb, Bool.false_eq_true, if_false, reduceIte]
        split <;> omega

theorem countAfter_lt {s : SkipList} {C : List Nat}
    (hnh : ∀ o ∈ C, o ≠ s.head)
    {x nxt : Nat} (hnxt : nxt ∈ C)
    (hlt : x = s.head ∨ keyLt s x nxt) :
    countAfter s C nxt < countAfter s C x := by
  have hnxtne : nxt ≠ s.head := hnh nxt hnxt
  have hfilter : (C.filter (fun b => decide (keyLt s nxt b))).length < C.length := by
    rw [← List.countP_eq_length_filter]
    have h1 : C.countP (fun b => decide (keyLt s nxt b)) < C.countP (fun _ => true) :=
      countP_lt_of C _ _ (fun a _ _ => rfl) nxt hnxt rfl
        (by simp [keyLt_irrefl s nxt])
    simpa using h1
  unfold countAfter
  rw [if_neg hnxtne]
  by_cases hxh : x = s.head
  · rw [if_pos hxh]
    exact hfilter
  · rw [if_neg hxh]
    rcases hlt with he | hklt
    · exact absurd he hxh
    · rw [← List.countP_eq_length_filter, ← List.countP_eq_length_filter]
      exact countP_lt_of C _ _
        (fun b _ hb => decide_eq_true (keyLt_trans hklt (of_decide_eq_true hb)))
        nxt hnxt (decide_eq_true hklt)
        (by simp [keyLt_irrefl s nxt])

theorem get_node_isSome_of_valid {s : SkipList} {off : Nat} (hv : validOff s off) :
    (s.arena.get_node off).isSome = true := by
  rcases hv with ⟨h1, h2⟩
  unfold Arena.get_node
  rw [if_neg (by omega)]
  have h3 : off - 1 < s.arena.nodes.length := by omega
  simp [List.get?_eq_getElem?, List.getElem?_eq_getElem h3]

/-- A tower entry of the head or a chain member is either null (and get_next
sees none) or a chain member strictly after the source. -/
theorem chain_next_cases {s : SkipList} {C : List Nat} (hC : ChainInv s C)
    {o : Nat} (ho : onChain s C o) (L : Nat) :
    (s.get_next_off o L = 0 ∧ s.get_next o L = none) ∨
    (s.get_next_off o L ∈ C ∧ s.get_next o L = some (s.get_next_off o L) ∧
      (o = s.head ∨ keyLt s o (s.get_next_off o L))) := by
  obtain ⟨hch, hp, hnh, hlinks, hhz⟩ := hC
  by_cases h0 : s.get_next_off o L = 0
  · left
    refine ⟨h0, ?_⟩
    unfold SkipList.get_next
    rw [h0]
    simp [Arena.get_node]
  · right
    have hmem : s.get_next_off o L ∈ C ∧ (o = s.head ∨ keyLt s o (s.get_next_off o L)) := by
      rcases ho with he | hm
      · rcases hlinks.1 L with hz | hz
        · rw [he] at h0; exact absurd hz h0
        · rw [he]; exact ⟨hz, Or.inl rfl⟩
      · rcases hlinks.2 o hm L with hz | hz
        · exact absurd hz h0
        · exact ⟨hz.1, Or.inr hz.2⟩
    have hv := IsChain_mem_valid hch _ hmem.1
    refine ⟨hmem.1, ?_, hmem.2⟩
    unfold SkipList.get_next
    rw [if_pos (get_node_isSome_of_valid hv)]

/-- Specification of the splice walk on a well-formed chain. -/
theorem splice_spec {s : SkipList} {C : List Nat} (hC : ChainInv s C)
    (k : List Nat) (L : Nat) :
    ∀ (fuel before : Nat),
      onChain s C before → rankLtKey s before k →
      countAfter s C before < fuel →
      (∃ pre, findSpliceAux s k fuel before L = (pre, none) ∧
         onChain s C pre ∧ rankLtKey s pre k ∧ s.get_next_off pre L = 0) ∨
      (∃ pre nxt, findSpliceAux s k fuel before L = (pre, some nxt) ∧
         onChain s C pre ∧ rankLtKey s pre k ∧ s.get_next_off pre L = nxt ∧
         nxt ∈ C ∧ compareBytes k (s.key_of nxt) = Ordering.lt) ∨
      (∃ nxt, findSpliceAux s k fuel before L = (nxt, some nxt) ∧
         nxt ∈ C ∧ s.key_of nxt = k) := by
  intro fuel
  induction fuel with
  | zero => intro before _ _ hcnt; omega
  | succ fuel ih =>
    intro before hon hrk hcnt
    rcases chain_next_cases ⟨hC.1, hC.2.1, hC.2.2.1, hC.2.2.2.1, hC.2.2.2.2⟩ hon L with
      ⟨h0, hnone⟩ | ⟨hmem, hsome, hfwd⟩
    · left
      exact ⟨before, by simp [findSpliceAux, hnone], hon, hrk, h0⟩
    · set nxt := s.get_next_off before L with hnxt
      have hstep : findSpliceAux s k (fuel + 1) before L =
          match compareBytes k (s.key_of nxt) with
          | Ordering.eq => (nxt, some nxt)
          | Ordering.lt => (before, some nxt)
          | Ordering.gt => findSpliceAux s k fuel nxt L := by
        simp [findSpliceAux, hsome]
      cases hcmp : compareBytes k (s.key_of nxt) with
      | eq =>
        right; right
        exact ⟨nxt, by rw [hstep, hcmp], hmem, (compareBytes_eq hcmp).symm⟩
      | lt =>
        right; left
        exact ⟨before, nxt, by rw [hstep, hcmp], hon, hrk, rfl, hmem, hcmp⟩
      | gt =>
        have hklt : compareBytes (s.key_of nxt) k = Ordering.lt :=
          compareBytes_gt_iff.mp hcmp
        have hcnt2 : countAfter s C nxt < fuel := by
          have := countAfter_lt hC.2.2.1 hmem hfwd
          omega
        have := ih nxt (Or.inr hmem) (Or.inr hklt) hcnt2
        rw [hstep, hcmp]
        exact this

/-- In a sorted chain containing `u` strictly after the cursor `x`, the
level-0 successor of `x` exists, is on the chain, and is at most `u`. -/
theorem chain_successor_le {s : SkipList} {C : List Nat}
    (hch : IsChain s (s.get_next_off s.head 0) C)
    (hp : List.Pairwise (keyLt s) C)
    (hnh : ∀ o ∈ C, o ≠ s.head)
    {x u : Nat} (hx : onChain s C x) (hu : u ∈ C)
    (hlt : x = s.head ∨ keyLt s x u) :
    s.get_next_off x 0 ≠ 0 ∧ s.get_next_off x 0 ∈ C ∧
      (s.get_next_off x 0 = u ∨ keyLt s (s.get_next_off x 0) u) := by
  rcases hx with he | hm
  · subst he
    cases hCc : C with
    | nil => rw [hCc] at hu; simp at hu
    | cons c0 rest =>
      rw [hCc] at hch hu hp
      have h1 : s.get_next_off s.head 0 = c0 := hch.1
      have hv : validOff s c0 := hch.2.1
      refine ⟨by rw [h1]; rcases hv with ⟨hv1, _⟩; omega,
        by rw [h1]; exact List.mem_cons_self c0 rest, ?_⟩
      rcases List.mem_cons.mp hu with rfl | hurest
      · exact Or.inl h1
      · right
        rw [h1]
        exact (List.pairwise_cons.mp hp).1 u hurest
  · -- x is a chain member
    have hklt : keyLt s x u := by
      rcases hlt with he | h
      · exact absurd he (hnh x hm)
      · exact h
    obtain ⟨l1, l2, hsplit⟩ := chain_mem_split hm
    rw [hsplit] at hch hp hu
    have hdec := IsChain_decomp hch
    have hpx : List.Pairwise (keyLt s) (x :: l2) :=
      ((List.pairwise_append.mp hp).2.1)
    have hune : u ≠ x := fun he => keyLt_irrefl s x (he ▸ hklt)
    have hul2 : u ∈ l2 := by
      rcases List.mem_append.mp hu with h1 | h2
      · exfalso
        have : keyLt s u x := (List.pairwise_append.mp hp).2.2 u h1 x (List.mem_cons_self x l2)
        exact keyLt_asymm hklt this
      · rcases List.mem_cons.mp h2 with he | h3
        · exact absurd he hune
        · exact h3
    cases hl2 : l2 with
    | nil => rw [hl2] at hul2; simp at hul2
    | cons y l3 =>
      rw [hl2] at hdec hul2 hpx
      have h1 : s.get_next_off x 0 = y := hdec.1
      have hv : validOff s y := hdec.2.1
      refine ⟨by rw [h1]; rcases hv with ⟨hv1, _⟩; omega, ?_, ?_⟩
      · rw [hsplit, hl2, h1]
        exact List.mem_append.mpr (Or.inr (List.mem_cons_of_mem x (List.mem_cons_self y l3)))
      · rw [h1]
        rcases List.mem_cons.mp hul2 with rfl | hul3
        · exact Or.inl rfl
        · right
          have hpl2 : List.Pairwise (keyLt s) (y :: l3) :=
            (List.pairwise_cons.mp hpx).2
          exact (List.pairwise_cons.mp hpl2).1 u hul3

/-- If the chain holds a node `u` with stored key `k`, the find_near walk with
less = false and allow_equal = true, started anywhere before `k`, finds
exactly `u`. -/
theorem findNear_found {s : SkipList} {C : List Nat} (hC : ChainInv s C)
    (k : List Nat) (u : Nat) (hu : u ∈ C) (huk : s.key_of u = k) :
    ∀ fuel x level,
      onChain s C x → rankLtKey s x k →
      21 * countAfter s C x + level + 1 ≤ fuel →
      findNearAux s k false true fuel x level = (some u, true) := by
  obtain ⟨hch, hp, hnh, hlinks, hhz⟩ := hC
  have hCfull : ChainInv s C := ⟨hch, hp, hnh, hlinks, hhz⟩
  intro fuel
  induction fuel with
  | zero => intro x level _ _ hb; omega
  | succ fuel ih =>
    intro x level hon hrk hb
    have hxu : x = s.head ∨ keyLt s x u := by
      rcases hrk with he | h
      · exact Or.inl he
      · refine Or.inr ?_
        show compareBytes (s.key_of x) (s.key_of u) = Ordering.lt
        rw [huk]
        exact h
    rcases chain_next_cases hCfull hon level with ⟨h0, hnone⟩ | ⟨hmem, hsome, hfwd⟩
    · simp only [findNearAux, hnone]
      by_cases hlv : 0 < level
      · rw [if_pos hlv]
        exact ih x (level - 1) hon hrk (by omega)
      · exfalso
        have hsucc := chain_successor_le hch hp hnh hon hu hxu
        have hlv0 : level = 0 := by omega
        rw [hlv0] at h0
        exact hsucc.1 h0
    · have hstep : findNearAux s k false true (fuel + 1) x level =
          match compareBytes k (s.key_of (s.get_next_off x level)) with
          | Ordering.gt => findNearAux s k false true fuel (s.get_next_off x level) level
          | Ordering.eq => (some (s.get_next_off x level), true)
          | Ordering.lt =>
            if 0 < level then findNearAux s k false true fuel x (level - 1)
            else (some (s.get_next_off x level), false) := by
        simp [findNearAux, hsome]
      rw [hstep]
      cases hcmp : compareBytes k (s.key_of (s.get_next_off x level)) with
      | gt =>
        have hklt : compareBytes (s.key_of (s.get_next_off x level)) k = Ordering.lt :=
          compareBytes_gt_iff.mp hcmp
        have hcnt : countAfter s C (s.get_next_off x level) < countAfter s C x :=
          countAfter_lt hnh hmem hfwd
        exact ih (s.get_next_off x level) level (Or.inr hmem) (Or.inr hklt) (by omega)
      | eq =>
        have hkeq : k = s.key_of (s.get_next_off x level) := compareBytes_eq hcmp
        have hequ : s.get_next_off x level = u :=
          chain_key_inj hp hmem hu (by rw [← hkeq, huk])
        show (some (s.get_next_off x level), true) = ((some u : Option Nat), true)
        rw [hequ]
      | lt =>
        show (if 0 < level then findNearAux s k false true fuel x (level - 1)
          else (some (s.get_next_off x level), false)) = (some u, true)
        by_cases hlv : 0 < level
        · rw [if_pos hlv]
          exact ih x (level - 1) hon hrk (by omega)
        · exfalso
          have hlv0 : level = 0 := by omega
          rw [hlv0] at hcmp
          have hsucc := chain_successor_le hch hp hnh hon hu hxu
          rcases hsucc.2.2 with he | hlt2
          · rw [he, huk] at hcmp
            rw [compareBytes_refl] at hcmp
            exact absurd hcmp (by simp)
          · have hlt2b : compareBytes (s.key_of (s.get_next_off x 0)) k = Ordering.lt := by
              rw [← huk]
              exact hlt2
            have hkk := compareBytes_lt_trans hcmp hlt2b
            rw [compareBytes_refl] at hkk
            exact absurd hkk (by simp)

theorem walkFuel_gt_countAfter {s : SkipList} {C : List Nat} (hC : ChainInv s C)
    (o : Nat) : countAfter s C o < s.walkFuel := by
  have h1 : countAfter s C o ≤ C.length := countAfter_le s C o
  have h2 : C.length ≤ s.arena.nodes.length := chain_length_le hC.1 hC.2.1
  unfold SkipList.walkFuel MAX_HEIGHT
  omega

/-- Specification of find_splice_for_level on a well-formed chain. -/
theorem find_splice_spec {s : SkipList} {C : List Nat} (hC : ChainInv s C)
    (k : List Nat) (L before : Nat)
    (hb : onChain s C before) (hr : rankLtKey s before k) :
    (∃ pre, s.find_splice_for_level k before L = (pre, none) ∧
       onChain s C pre ∧ rankLtKey s pre k ∧ s.get_next_off pre L = 0) ∨
    (∃ pre nxt, s.find_splice_for_level k before L = (pre, some nxt) ∧
       onChain s C pre ∧ rankLtKey s pre k ∧ s.get_next_off pre L = nxt ∧
       nxt ∈ C ∧ compareBytes k (s.key_of nxt) = Ordering.lt) ∨
    (∃ nxt, s.find_splice_for_level k before L = (nxt, some nxt) ∧
       nxt ∈ C ∧ s.key_of nxt = k) :=
  splice_spec hC k L s.walkFuel before hb hr (walkFuel_gt_countAfter hC before)

/-- A splice result standing before `k` never equals one standing after. -/
theorem splice_pre_ne_nxt {s : SkipList} {C : List Nat}
    (hnh : ∀ o ∈ C, o ≠ s.head) {pre nxt : Nat} {k : List Nat}
    (hrk : rankLtKey s pre k) (hnxt : nxt ∈ C)
    (hgt : compareBytes k (s.key_of nxt) = Ordering.lt) : pre ≠ nxt := by
  intro he
  subst he
  rcases hrk with hh | hlt
  · exact hnh pre hnxt hh
  · have := compareBytes_lt_trans hlt hgt
    rw [compareBytes_refl] at this
    exact absurd this (by simp)

/-- Specification of the first pass of _put when the key is absent from the
chain: it completes with a cont result whose arrays record, per level, a
splice standing strictly around the key. -/
theorem pass1_spec {s : SkipList} {C : List Nat} (hC : ChainInv s C)
    (k : List Nat) (v : ValueStruct)
    (hfresh : ∀ o ∈ C, s.key_of o ≠ k) :
    ∀ (cnt : Nat) (prev next : List Nat),
      prev.length = MAX_HEIGHT + 1 → next.length = MAX_HEIGHT + 1 →
      cnt ≤ MAX_HEIGHT →
      onChain s C (prev.getD cnt 0) → rankLtKey s (prev.getD cnt 0) k →
      (∀ j, j < cnt → prev.getD j 0 = 0) →
      (∀ j, j < cnt → next.getD j 0 = 0) →
      ∃ prev2 next2,
        putPass1 s k v cnt prev next = Pass1Res.cont prev2 next2 ∧
        prev2.length = MAX_HEIGHT + 1 ∧ next2.length = MAX_HEIGHT + 1 ∧
        (∀ j, cnt ≤ j → prev2.getD j 0 = prev.getD j 0 ∧ next2.getD j 0 = next.getD j 0) ∧
        (∀ j, j < cnt →
          onChain s C (prev2.getD j 0) ∧ rankLtKey s (prev2.getD j 0) k ∧
          s.get_next_off (prev2.getD j 0) j = next2.getD j 0 ∧
          (next2.getD j 0 = 0 ∨ (next2.getD j 0 ∈ C ∧
            compareBytes k (s.key_of (next2.getD j 0)) = Ordering.lt))) := by
  intro cnt
  induction cnt with
  | zero =>
    intro prev next hpl hnl _ _ _ _ _
    exact ⟨prev, next, rfl, hpl, hnl, fun j _ => ⟨rfl, rfl⟩, fun j hj => by omega⟩
  | succ cnt ih =>
    intro prev next hpl hnl hle hon hrk hpz hnz
    rcases find_splice_spec hC k cnt (prev.getD (cnt + 1) 0) hon hrk with
      ⟨pre, hsp, hon2, hrk2, hz⟩ | ⟨pre, nxt, hsp, hon2, hrk2, hoff, hmem, hgt⟩ |
      ⟨nxt, hsp, hmem, hkey⟩
    · -- splice found no next: prev[cnt] := pre, next untouched
      have hcnt21 : cnt < prev.length := by omega
      obtain ⟨prev2, next2, hrun, hl1, hl2, hkeep, hprops⟩ :=
        ih (prev.set cnt pre) next (by simpa using hpl) hnl (by omega)
          (by rw [getD_set_self prev cnt pre hcnt21]; exact hon2)
          (by rw [getD_set_self prev cnt pre hcnt21]; exact hrk2)
          (fun j hj => by rw [getD_set_ne prev cnt j pre (by omega)]; exact hpz j (by omega))
          (fun j hj => hnz j (by omega))
      refine ⟨prev2, next2, ?_, hl1, hl2, ?_, ?_⟩
      · simp only [putPass1, hsp]
        exact hrun
      · intro j hj
        rcases hkeep j (by omega) with ⟨h1, h2⟩
        rw [h1, h2, getD_set_ne prev cnt j pre (by omega)]
        exact ⟨rfl, rfl⟩
      · intro j hj
        rcases Nat.lt_succ_iff_lt_or_eq.mp hj with hj2 | hj2
        · exact hprops j hj2
        · subst hj2
          rcases hkeep j (Nat.le_refl j) with ⟨h1, h2⟩
          rw [h1, h2, getD_set_self prev j pre (by omega)]
          refine ⟨hon2, hrk2, ?_, Or.inl (hnz j (by omega))⟩
          rw [hnz j (by omega)]
          exact hz
    · -- splice returned a strictly greater next
      have hne : pre ≠ nxt := splice_pre_ne_nxt hC.2.2.1 hrk2 hmem hgt
      have hcnt21 : cnt < prev.length := by omega
      have hcnt22 : cnt < next.length := by omega
      obtain ⟨prev2, next2, hrun, hl1, hl2, hkeep, hprops⟩ :=
        ih (prev.set cnt pre) (next.set cnt nxt)
          (by simpa using hpl) (by simpa using hnl) (by omega)
          (by rw [getD_set_self prev cnt pre hcnt21]; exact hon2)
          (by rw [getD_set_self prev cnt pre hcnt21]; exact hrk2)
          (fun j hj => by rw [getD_set_ne prev cnt j pre (by omega)]; exact hpz j (by omega))
          (fun j hj => by rw [getD_set_ne next cnt j nxt (by omega)]; exact hnz j (by omega))
      refine ⟨prev2, next2, ?_, hl1, hl2, ?_, ?_⟩
      · simp only [putPass1, hsp, if_neg hne]
        exact hrun
      · intro j hj
        rcases hkeep j (by omega) with ⟨h1, h2⟩
        rw [h1, h2, getD_set_ne prev cnt j pre (by omega),
          getD_set_ne next cnt j nxt (by omega)]
        exact ⟨rfl, rfl⟩
      · intro j hj
        rcases Nat.lt_succ_iff_lt_or_eq.mp hj with hj2 | hj2
        · exact hprops j hj2
        · subst hj2
          rcases hkeep j (Nat.le_refl j) with ⟨h1, h2⟩
          rw [h1, h2, getD_set_self prev j pre (by omega),
            getD_set_self next j nxt (by omega)]
          exact ⟨hon2, hrk2, hoff, Or.inr ⟨hmem, hgt⟩⟩
    · -- equality: impossible, the key is fresh
      exact absurd hkey (hfresh nxt hmem)

/-- When the key is already on the chain, the first pass of _put panics
(never overwrites): an equality splice is reached with prev[i] still null. -/
theorem pass1_panic_of_present {s : SkipList} {C : List Nat} (hC : ChainInv s C)
    (k : List Nat) (v : ValueStruct) {u : Nat} (hu : u ∈ C) (huk : s.key_of u = k) :
    ∀ (cnt : Nat) (prev next : List Nat),
      1 ≤ cnt →
      onChain s C (prev.getD cnt 0) → rankLtKey s (prev.getD cnt 0) k →
      (∀ j, j < cnt → prev.getD j 0 = 0) →
      prev.length = MAX_HEIGHT + 1 → cnt ≤ MAX_HEIGHT →
      putPass1 s k v cnt prev next = Pass1Res.panic := by
  intro cnt
  induction cnt with
  | zero => intro prev next h1 _ _ _ _ _; omega
  | succ cnt ih =>
    intro prev next _ hon hrk hpz hpl hle
    rcases find_splice_spec hC k cnt (prev.getD (cnt + 1) 0) hon hrk with
      ⟨pre, hsp, hon2, hrk2, hz⟩ | ⟨pre, nxt, hsp, hon2, hrk2, hoff, hmem, hgt⟩ |
      ⟨nxt, hsp, hmem, hkey⟩
    · by_cases hc0 : cnt = 0
      · exfalso
        subst hc0
        have hxu : pre = s.head ∨ keyLt s pre u := by
          rcases hrk2 with hh | hlt
          · exact Or.inl hh
          · refine Or.inr ?_
            show compareBytes (s.key_of pre) (s.key_of u) = Ordering.lt
            rw [huk]
            exact hlt
        have hsucc := chain_successor_le hC.1 hC.2.1 hC.2.2.1 hon2 hu hxu
        exact hsucc.1 hz
      · simp only [putPass1, hsp]
        exact ih (prev.set cnt pre) next (by omega)
          (by rw [getD_set_self prev cnt pre (by omega)]; exact hon2)
          (by rw [getD_set_self prev cnt pre (by omega)]; exact hrk2)
          (fun j hj => by
            rw [getD_set_ne prev cnt j pre (by omega)]
            exact hpz j (by omega))
          (by simpa using hpl) (by omega)
    · have hne : pre ≠ nxt := splice_pre_ne_nxt hC.2.2.1 hrk2 hmem hgt
      by_cases hc0 : cnt = 0
      · exfalso
        subst hc0
        have hxu : pre = s.head ∨ keyLt s pre u := by
          rcases hrk2 with hh | hlt
          · exact Or.inl hh
          · refine Or.inr ?_
            show compareBytes (s.key_of pre) (s.key_of u) = Ordering.lt
            rw [huk]
            exact hlt
        have hsucc := chain_successor_le hC.1 hC.2.1 hC.2.2.1 hon2 hu hxu
        rcases hsucc.2.2 with he | hlt2
        · rw [hoff] at he
          rw [he, huk] at hgt
          rw [compareBytes_refl] at hgt
          exact absurd hgt (by simp)
        · rw [hoff] at hlt2
          have h2 : compareBytes (s.key_of nxt) k = Ordering.lt := by
            rw [← huk]
            exact hlt2
          have h3 := compareBytes_lt_trans hgt h2
          rw [compareBytes_refl] at h3
          exact absurd h3 (by simp)
      · simp only [putPass1, hsp, if_neg hne]
        exact ih (prev.set cnt pre) (next.set cnt nxt) (by omega)
          (by rw [getD_set_self prev cnt pre (by omega)]; exact hon2)
          (by rw [getD_set_self prev cnt pre (by omega)]; exact hrk2)
          (fun j hj => by
            rw [getD_set_ne prev cnt j pre (by omega)]
            exact hpz j (by omega))
          (by simpa using hpl) (by omega)
    · have hz0 : prev.getD cnt 0 = 0 := hpz cnt (by omega)
      simp only [putPass1, hsp]
      rw [if_pos hz0]
      simp

/-! ### Generic list lemmas for the linking phase -/

theorem getD_set_self2 {α : Type} (l : List α) (i : Nat) (x d : α) (h : i < l.length) :
    (l.set i x).getD i d = x := by
  simp [List.getD, List.getElem?_set_self, h]

theorem getD_set_ne2 {α : Type} (l : List α) (i j : Nat) (x d : α) (h : i ≠ j) :
    (l.set i x).getD j d = l.getD j d := by
  simp [List.getD, List.getElem?_set_ne h]

theorem getD_append_lt {α : Type} (l1 l2 : List α) (i : Nat) (d : α) (h : i < l1.length) :
    (l1 ++ l2).getD i d = l1.getD i d := by
  simp [List.getD, List.getElem?_append, h]

theorem getD_append_last {α : Type} (l : List α) (a d : α) :
    (l ++ [a]).getD l.length d = a := by
  simp [List.getD, List.getElem?_append_right (Nat.le_refl l.length)]

theorem set_append_last {α : Type} (l : List α) (a b : α) :
    (l ++ [a]).set l.length b = l ++ [b] := by
  induction l with
  | nil => rfl
  | cons c t ih => simp [List.set, ih]

theorem getD_replicate_zero (n i : Nat) : (List.replicate n (0 : Nat)).getD i 0 = 0 := by
  induction n generalizing i with
  | zero => cases i <;> rfl
  | succ m ih =>
    cases i with
    | zero => rfl
    | succ j => exact ih j

/-! ### Frame lemmas for setNode -/

theorem validOff_mono {s t : SkipList} (hlen : s.arena.nodes.length ≤ t.arena.nodes.length)
    {off : Nat} (hv : validOff s off) : validOff t off := by
  rcases hv with ⟨h1, h2⟩
  exact ⟨h1, by omega⟩

theorem setNode_head (s : SkipList) (off : Nat) (nd : Node) :
    (s.setNode off nd).head = s.head := rfl

theorem setNode_height (s : SkipList) (off : Nat) (nd : Node) :
    (s.setNode off nd).height = s.height := rfl

theorem setNode_keys (s : SkipList) (off : Nat) (nd : Node) :
    (s.setNode off nd).arena.keys = s.arena.keys := rfl

theorem setNode_vals (s : SkipList) (off : Nat) (nd : Node) :
    (s.setNode off nd).arena.vals = s.arena.vals := rfl

theorem setNode_nodes_length (s : SkipList) (off : Nat) (nd : Node) :
    (s.setNode off nd).arena.nodes.length = s.arena.nodes.length := by
  simp [SkipList.setNode]

theorem nodeAt_setNode (s : SkipList) (o : Nat) (nd : Node) (off : Nat)
    (ho : 1 ≤ o) (hle : o ≤ s.arena.nodes.length) :
    (s.setNode o nd).nodeAt off = if off = o then nd else s.nodeAt off := by
  simp only [SkipList.nodeAt, SkipList.setNode]
  by_cases h0 : off = 0
  · subst h0
    have hne : (0 : Nat) ≠ o := by omega
    simp [hne]
  · rw [if_neg h0, if_neg h0]
    by_cases he : off = o
    · subst he
      rw [if_pos rfl]
      exact getD_set_self2 _ _ _ _ (by omega)
    · rw [if_neg he]
      exact getD_set_ne2 _ _ _ _ _ (fun hc => he (by omega))

/-! ### The state after allocating the new node (pass 2 of _put, before linking) -/

/-- The node written by Node::new for key `k`, value `v` and tower height `h`
on top of arena `s.arena`. -/
def newNode (s : SkipList) (k : List Nat) (v : ValueStruct) (h : Nat) : Node :=
  { Node.default with
    key_offset := s.arena.keys.length + 1
    key_size := k.length % 65536
    value := Node.encode_value (s.arena.vals.length + 1) (v.value.length + 10)
    height := h }

/-- The skiplist state right after _put allocates the new node and raises the
list height, before any link is written. -/
def allocState (s : SkipList) (k : List Nat) (v : ValueStruct) (h : Nat) : SkipList :=
  let p := Node.newIn s.arena k v h
  let s2 : SkipList := { s with arena := p.1 }
  if s2.height < h then { s2 with height := h } else s2

theorem allocState_arena (s : SkipList) (k : List Nat) (v : ValueStruct) (h : Nat) :
    (allocState s k v h).arena = (Node.newIn s.arena k v h).1 := by
  simp only [allocState]
  split <;> rfl

theorem newIn_nodes (a : Arena) (k : List Nat) (v : ValueStruct) (h : Nat) :
    (Node.newIn a k v h).1.nodes = a.nodes ++
      [{ Node.default with
          key_offset := a.keys.length + 1
          key_size := k.length % 65536
          value := Node.encode_value (a.vals.length + 1) (v.value.length + 10)
          height := h }] := by
  show (a.nodes ++ [Node.default]).set (a.nodes.length + 1 - 1) _ = _
  rw [Nat.add_sub_cancel]
  exact set_append_last _ _ _

theorem allocState_nodes (s : SkipList) (k : List Nat) (v : ValueStruct) (h : Nat) :
    (allocState s k v h).arena.nodes = s.arena.nodes ++ [newNode s k v h] := by
  rw [allocState_arena]
  exact newIn_nodes _ _ _ _

theorem allocState_nodes_length (s : SkipList) (k : List Nat) (v : ValueStruct) (h : Nat) :
    (allocState s k v h).arena.nodes.length = s.arena.nodes.length + 1 := by
  rw [allocState_nodes]
  simp

theorem allocState_keys (s : SkipList) (k : List Nat) (v : ValueStruct) (h : Nat) :
    (allocState s k v h).arena.keys = s.arena.keys ++ [k] := by
  rw [allocState_arena]
  rfl

theorem allocState_vals (s : SkipList) (k : List Nat) (v : ValueStruct) (h : Nat) :
    (allocState s k v h).arena.vals = s.arena.vals ++ [v] := by
  rw [allocState_arena]
  rfl

theorem allocState_head (s : SkipList) (k : List Nat) (v : ValueStruct) (h : Nat) :
    (allocState s k v h).head = s.head := by
  simp only [allocState]
  split <;> rfl

theorem allocState_height (s : SkipList) (k : List Nat) (v : ValueStruct) (h : Nat) :
    (allocState s k v h).height = max s.height h := by
  simp only [allocState]
  split
  · next hlt =>
    have hlt2 : s.height < h := hlt
    show h = max s.height h
    omega
  · next hge =>
    have hge2 : ¬ s.height < h := hge
    show s.height = max s.height h
    omega

theorem allocState_nodeAt_old (s : SkipList) (k : List Nat) (v : ValueStruct) (h off : Nat)
    (h1 : off ≤ s.arena.nodes.length) :
    (allocState s k v h).nodeAt off = s.nodeAt off := by
  by_cases h0 : off = 0
  · simp [SkipList.nodeAt, h0]
  · simp only [SkipList.nodeAt, if_neg h0]
    rw [allocState_nodes]
    exact getD_append_lt _ _ _ _ (by omega)

theorem allocState_nodeAt_new (s : SkipList) (k : List Nat) (v : ValueStruct) (h : Nat) :
    (allocState s k v h).nodeAt (s.arena.nodes.length + 1) = newNode s k v h := by
  simp only [SkipList.nodeAt, if_neg (Nat.succ_ne_zero s.arena.nodes.length)]
  rw [allocState_nodes, Nat.add_sub_cancel]
  exact getD_append_last _ _ _

theorem allocState_key_of_old (s : SkipList) (k : List Nat) (v : ValueStruct) (h off : Nat)
    (h1 : off ≤ s.arena.nodes.length)
    (hko1 : 1 ≤ (s.nodeAt off).key_offset)
    (hko2 : (s.nodeAt off).key_offset ≤ s.arena.keys.length) :
    (allocState s k v h).key_of off = s.key_of off := by
  unfold SkipList.key_of Arena.get_key
  rw [allocState_nodeAt_old _ _ _ _ _ h1, allocState_keys]
  rw [getD_append_lt _ _ _ _ (by omega)]

theorem allocState_key_of_new (s : SkipList) (k : List Nat) (v : ValueStruct) (h : Nat)
    (hk : k.length < 65536) :
    (allocState s k v h).key_of (s.arena.nodes.length + 1) = k := by
  unfold SkipList.key_of Arena.get_key
  rw [allocState_nodeAt_new, allocState_keys]
  show ((s.arena.keys ++ [k]).getD (s.arena.keys.length + 1 - 1) []).take (k.length % 65536) = k
  rw [Nat.add_sub_cancel, getD_append_last, Nat.mod_eq_of_lt hk, List.take_length]

theorem allocState_next_old (s : SkipList) (k : List Nat) (v : ValueStruct) (h off L : Nat)
    (h1 : off ≤ s.arena.nodes.length) :
    (allocState s k v h).get_next_off off L = s.get_next_off off L := by
  unfold SkipList.get_next_off
  rw [allocState_nodeAt_old _ _ _ _ _ h1]

theorem allocState_next_new (s : SkipList) (k : List Nat) (v : ValueStruct) (h L : Nat) :
    (allocState s k v h).get_next_off (s.arena.nodes.length + 1) L = 0 := by
  unfold SkipList.get_next_off
  rw [allocState_nodeAt_new]
  show (List.replicate MAX_HEIGHT 0).getD L 0 = 0
  exact getD_replicate_zero _ _

/-! ### The linking phase as an explicit sequence of tower writes -/

theorem tower_update (nd : Node) (tw : List Nat) :
    ({ nd with tower := tw } : Node).tower = tw := rfl

/-- One level of successful linking, exactly as the linked branch of the inner
loop of _put writes it: point the new node's entry `i` at the recorded next,
then store the new node into the recorded prev's entry `i`. -/
def linkStepState (xoff : Nat) (prevA nextA : List Nat) (t : SkipList) (i : Nat) : SkipList :=
  let t1 := t.setNode xoff
    { t.nodeAt xoff with tower := (t.nodeAt xoff).tower.set i (nextA.getD i 0 % 4294967296) }
  t1.setNode (prevA.getD i 0)
    { t1.nodeAt (prevA.getD i 0) with
      tower := (t1.nodeAt (prevA.getD i 0)).tower.set i (xoff % 4294967296) }

/-- The state after linking levels 0..i-1. -/
def linkedState (xoff : Nat) (prevA nextA : List Nat) (s3 : SkipList) : Nat → SkipList
  | 0 => s3
  | i + 1 => linkStepState xoff prevA nextA (linkedState xoff prevA nextA s3 i) i

theorem linkedState_frame (xoff : Nat) (pA nA : List Nat) (s3 : SkipList) (i : Nat) :
    (linkedState xoff pA nA s3 i).head = s3.head ∧
    (linkedState xoff pA nA s3 i).height = s3.height ∧
    (linkedState xoff pA nA s3 i).arena.keys = s3.arena.keys ∧
    (linkedState xoff pA nA s3 i).arena.vals = s3.arena.vals ∧
    (linkedState xoff pA nA s3 i).arena.nodes.length = s3.arena.nodes.length := by
  induction i with
  | zero => exact ⟨rfl, rfl, rfl, rfl, rfl⟩
  | succ j ih =>
    rcases ih with ⟨h1, h2, h3, h4, h5⟩
    refine ⟨?_, ?_, ?_, ?_, ?_⟩ <;>
      simp [linkedState, linkStepState, setNode_head, setNode_height, setNode_keys,
        setNode_vals, setNode_nodes_length, h1, h2, h3, h4, h5]

/-- Non-tower fields and tower lengths of every node are unchanged by the
linking writes. -/
theorem linkedState_fields (xoff : Nat) (pA nA : List Nat) (s3 : SkipList) (i : Nat)
    (hx1 : 1 ≤ xoff) (hx2 : xoff ≤ s3.arena.nodes.length)
    (hpv : ∀ j, j < i → 1 ≤ pA.getD j 0 ∧ pA.getD j 0 ≤ s3.arena.nodes.length) :
    ∀ off,
      ((linkedState xoff pA nA s3 i).nodeAt off).key_offset = (s3.nodeAt off).key_offset ∧
      ((linkedState xoff pA nA s3 i).nodeAt off).key_size = (s3.nodeAt off).key_size ∧
      ((linkedState xoff pA nA s3 i).nodeAt off).value = (s3.nodeAt off).value ∧
      ((linkedState xoff pA nA s3 i).nodeAt off).height = (s3.nodeAt off).height ∧
      ((linkedState xoff pA nA s3 i).nodeAt off).tower.length = (s3.nodeAt off).tower.length := by
  induction i with
  | zero => intro off; exact ⟨rfl, rfl, rfl, rfl, rfl⟩
  | succ j ih =>
    intro off
    have hpvj := hpv j (by omega)
    have ihall := ih (fun j2 hj2 => hpv j2 (by omega))
    have hlen : (linkedState xoff pA nA s3 j).arena.nodes.length = s3.arena.nodes.length :=
      (linkedState_frame xoff pA nA s3 j).2.2.2.2
    set T := linkedState xoff pA nA s3 j with hT
    set nd1 : Node :=
      { T.nodeAt xoff with tower := (T.nodeAt xoff).tower.set j (nA.getD j 0 % 4294967296) }
      with hnd1
    set T1 := T.setNode xoff nd1 with hT1
    have hx2T : xoff ≤ T.arena.nodes.length := by rw [hlen]; exact hx2
    have hp2T1 : pA.getD j 0 ≤ T1.arena.nodes.length := by
      rw [hT1, setNode_nodes_length, hlen]
      exact hpvj.2
    have h1off : T1.nodeAt off = if off = xoff then nd1 else T.nodeAt off :=
      nodeAt_setNode T xoff nd1 off hx1 hx2T
    have hstep : (linkedState xoff pA nA s3 (j + 1)).nodeAt off =
        if off = pA.getD j 0 then
          { T1.nodeAt (pA.getD j 0) with
            tower := (T1.nodeAt (pA.getD j 0)).tower.set j (xoff % 4294967296) }
        else T1.nodeAt off := by
      show (T1.setNode (pA.getD j 0)
        { T1.nodeAt (pA.getD j 0) with
          tower := (T1.nodeAt (pA.getD j 0)).tower.set j (xoff % 4294967296) }).nodeAt off = _
      exact nodeAt_setNode T1 (pA.getD j 0) _ off hpvj.1 hp2T1
    have hflds1 : ∀ o,
        (T1.nodeAt o).key_offset = (s3.nodeAt o).key_offset ∧
        (T1.nodeAt o).key_size = (s3.nodeAt o).key_size ∧
        (T1.nodeAt o).value = (s3.nodeAt o).value ∧
        (T1.nodeAt o).height = (s3.nodeAt o).height ∧
        (T1.nodeAt o).tower.length = (s3.nodeAt o).tower.length := by
      intro o
      have h1o : T1.nodeAt o = if o = xoff then nd1 else T.nodeAt o :=
        nodeAt_setNode T xoff nd1 o hx1 hx2T
      rw [h1o]
      by_cases he : o = xoff
      · rw [if_pos he, hnd1]
        subst he
        refine ⟨(ihall o).1, (ihall o).2.1, (ihall o).2.2.1, (ihall o).2.2.2.1, ?_⟩
        rw [tower_update, List.length_set]
        exact (ihall o).2.2.2.2
      · rw [if_neg he]
        exact ihall o
    rw [hstep]
    by_cases hop : off = pA.getD j 0
    · rw [if_pos hop]
      refine ⟨(hflds1 _).1.trans ?_, (hflds1 _).2.1.trans ?_, (hflds1 _).2.2.1.trans ?_,
        (hflds1 _).2.2.2.1.trans ?_, ?_⟩ <;> rw [hop]
      rw [tower_update, List.length_set]
      exact (hflds1 _).2.2.2.2
    · rw [if_neg hop]
      exact hflds1 off

/-- The tower of the new node after linking levels 0..i-1. -/
theorem linkedState_next_new (xoff : Nat) (pA nA : List Nat) (s3 : SkipList) (i : Nat)
    (hx1 : 1 ≤ xoff) (hx2 : xoff ≤ s3.arena.nodes.length)
    (hpv : ∀ j, j < i → 1 ≤ pA.getD j 0 ∧ pA.getD j 0 ≤ s3.arena.nodes.length ∧
      pA.getD j 0 ≠ xoff)
    (htl : (s3.nodeAt xoff).tower.length = MAX_HEIGHT)
    (hi : i ≤ MAX_HEIGHT) :
    ∀ L, (linkedState xoff pA nA s3 i).get_next_off xoff L =
      if L < i then nA.getD L 0 % 4294967296 else s3.get_next_off xoff L := by
  have hM : MAX_HEIGHT = 20 := rfl
  induction i with
  | zero =>
    intro L
    rw [if_neg (by omega)]
    rfl
  | succ j ih =>
    intro L
    have hpvj := hpv j (by omega)
    have ihL := ih (fun j2 hj2 => hpv j2 (by omega)) (by omega) L
    have hflds := linkedState_fields xoff pA nA s3 j hx1 hx2
      (fun j2 hj2 => ⟨(hpv j2 (by omega)).1, (hpv j2 (by omega)).2.1⟩)
    have hlen : (linkedState xoff pA nA s3 j).arena.nodes.length = s3.arena.nodes.length :=
      (linkedState_frame xoff pA nA s3 j).2.2.2.2
    set T := linkedState xoff pA nA s3 j with hT
    have htl2 : (T.nodeAt xoff).tower.length = MAX_HEIGHT := by
      rw [(hflds xoff).2.2.2.2]
      exact htl
    set nd1 : Node :=
      { T.nodeAt xoff with tower := (T.nodeAt xoff).tower.set j (nA.getD j 0 % 4294967296) }
      with hnd1
    set T1 := T.setNode xoff nd1 with hT1
    have hx2T : xoff ≤ T.arena.nodes.length := by rw [hlen]; exact hx2
    have hp2T1 : pA.getD j 0 ≤ T1.arena.nodes.length := by
      rw [hT1, setNode_nodes_length, hlen]
      exact hpvj.2.1
    have hstep : (linkedState xoff pA nA s3 (j + 1)).nodeAt xoff = nd1 := by
      show (T1.setNode (pA.getD j 0)
        { T1.nodeAt (pA.getD j 0) with
          tower := (T1.nodeAt (pA.getD j 0)).tower.set j (xoff % 4294967296) }).nodeAt xoff = nd1
      rw [nodeAt_setNode T1 (pA.getD j 0) _ xoff hpvj.1 hp2T1,
        if_neg (fun hc => hpvj.2.2 hc.symm), hT1,
        nodeAt_setNode T xoff nd1 xoff hx1 hx2T, if_pos rfl]
    show (linkedState xoff pA nA s3 (j + 1)).get_next_off xoff L =
      if L < j + 1 then nA.getD L 0 % 4294967296 else s3.get_next_off xoff L
    unfold SkipList.get_next_off
    rw [hstep, hnd1, tower_update]
    by_cases hLj : L = j
    · subst hLj
      rw [getD_set_self2 _ _ _ _ (by omega), if_pos (by omega)]
    · rw [getD_set_ne2 _ _ _ _ _ (fun hc => hLj hc.symm)]
      have h2 : (T.nodeAt xoff).tower.getD L 0 = T.get_next_off xoff L := rfl
      rw [h2, ihL]
      by_cases hL : L < j
      · rw [if_pos hL, if_pos (by omega)]
      · rw [if_neg hL, if_neg (by omega)]
        rfl

/-- The tower entries of the pre-existing nodes after linking levels 0..i-1:
entry `L` of the recorded prev of level `L` now holds the new node, everything
else is unchanged. -/
theorem linkedState_next_old (xoff : Nat) (pA nA : List Nat) (s3 : SkipList) (i : Nat)
    (hx1 : 1 ≤ xoff) (hx2 : xoff ≤ s3.arena.nodes.length)
    (hpv : ∀ j, j < i → 1 ≤ pA.getD j 0 ∧ pA.getD j 0 ≤ s3.arena.nodes.length ∧
      pA.getD j 0 ≠ xoff)
    (htow : ∀ j, j < i → (s3.nodeAt (pA.getD j 0)).tower.length = MAX_HEIGHT)
    (hi : i ≤ MAX_HEIGHT) :
    ∀ off L, off ≠ xoff →
      (linkedState xoff pA nA s3 i).get_next_off off L =
        if L < i ∧ pA.getD L 0 = off then xoff % 4294967296 else s3.get_next_off off L := by
  have hM : MAX_HEIGHT = 20 := rfl
  induction i with
  | zero =>
    intro off L _
    rw [if_neg (fun hc => Nat.not_lt_zero L hc.1)]
    rfl
  | succ j ih =>
    intro off L hne
    have hpvj := hpv j (by omega)
    have ihL := ih (fun j2 hj2 => hpv j2 (by omega)) (fun j2 hj2 => htow j2 (by omega))
      (by omega) off L hne
    have hflds := linkedState_fields xoff pA nA s3 j hx1 hx2
      (fun j2 hj2 => ⟨(hpv j2 (by omega)).1, (hpv j2 (by omega)).2.1⟩)
    have hlen : (linkedState xoff pA nA s3 j).arena.nodes.length = s3.arena.nodes.length :=
      (linkedState_frame xoff pA nA s3 j).2.2.2.2
    set T := linkedState xoff pA nA s3 j with hT
    set nd1 : Node :=
      { T.nodeAt xoff with tower := (T.nodeAt xoff).tower.set j (nA.getD j 0 % 4294967296) }
      with hnd1
    set T1 := T.setNode xoff nd1 with hT1
    have hx2T : xoff ≤ T.arena.nodes.length := by rw [hlen]; exact hx2
    have hp2T1 : pA.getD j 0 ≤ T1.arena.nodes.length := by
      rw [hT1, setNode_nodes_length, hlen]
      exact hpvj.2.1
    have hT1off : T1.nodeAt off = T.nodeAt off := by
      rw [hT1, nodeAt_setNode T xoff nd1 off hx1 hx2T, if_neg hne]
    have hT1p : T1.nodeAt (pA.getD j 0) = T.nodeAt (pA.getD j 0) := by
      rw [hT1, nodeAt_setNode T xoff nd1 _ hx1 hx2T, if_neg hpvj.2.2]
    have hstep : (linkedState xoff pA nA s3 (j + 1)).nodeAt off =
        if off = pA.getD j 0 then
          { T1.nodeAt (pA.getD j 0) with
            tower := (T1.nodeAt (pA.getD j 0)).tower.set j (xoff % 4294967296) }
        else T.nodeAt off := by
      show (T1.setNode (pA.getD j 0)
        { T1.nodeAt (pA.getD j 0) with
          tower := (T1.nodeAt (pA.getD j 0)).tower.set j (xoff % 4294967296) }).nodeAt off = _
      rw [nodeAt_setNode T1 (pA.getD j 0) _ off hpvj.1 hp2T1]
      by_cases hop : off = pA.getD j 0
      · rw [if_pos hop, if_pos hop]
      · rw [if_neg hop, if_neg hop, hT1off]
    show (linkedState xoff pA nA s3 (j + 1)).get_next_off off L =
      if L < j + 1 ∧ pA.getD L 0 = off then xoff % 4294967296 else s3.get_next_off off L
    unfold SkipList.get_next_off
    rw [hstep]
    by_cases hop : off = pA.getD j 0
    · rw [if_pos hop, hT1p, tower_update]
      have htlp : (T.nodeAt (pA.getD j 0)).tower.length = MAX_HEIGHT := by
        rw [(hflds (pA.getD j 0)).2.2.2.2]
        exact htow j (by omega)
      by_cases hLj : L = j
      · subst hLj
        rw [getD_set_self2 _ _ _ _ (by omega), if_pos ⟨by omega, hop.symm⟩]
      · rw [getD_set_ne2 _ _ _ _ _ (fun hc => hLj hc.symm), ← hop]
        have h2 : (T.nodeAt off).tower.getD L 0 = T.get_next_off off L := rfl
        rw [h2, ihL]
        by_cases hc : L < j ∧ pA.getD L 0 = off
        · rw [if_pos hc, if_pos ⟨by omega, hc.2⟩]
        · have hnc : ¬(L < j + 1 ∧ pA.getD L 0 = off) := by
            intro hcc
            exact hc ⟨by omega, hcc.2⟩
          rw [if_neg hc, if_neg hnc]
          rfl
    · rw [if_neg hop]
      have h2 : (T.nodeAt off).tower.getD L 0 = T.get_next_off off L := rfl
      rw [h2, ihL]
      by_cases hc : L < j ∧ pA.getD L 0 = off
      · rw [if_pos hc, if_pos ⟨by omega, hc.2⟩]
      · have hnc : ¬(L < j + 1 ∧ pA.getD L 0 = off) := by
          intro hcc
          have hLj : L ≠ j := fun he => hop (by rw [← he]; exact hcc.2.symm)
          exact hc ⟨by omega, hcc.2⟩
        rw [if_neg hc, if_neg hnc]
        rfl

/-! ### Running the linking loops on a well-formed splice -/

theorem findSpliceAux_stuck (s : SkipList) (k : List Nat) (fuel before L : Nat)
    (h : s.get_next before L = none) :
    findSpliceAux s k fuel before L = (before, none) := by
  cases fuel with
  | zero => rfl
  | succ m => simp [findSpliceAux, h]

theorem get_next_none (s : SkipList) (off L : Nat) (h : s.get_next_off off L = 0) :
    s.get_next off L = none := by
  unfold SkipList.get_next
  rw [h]
  simp [Arena.get_node]

/-- One successful iteration of the linking loop at level `i`: the CAS finds
the recorded next and installs the new node, producing exactly the next
`linkedState`. -/
theorem linkLoop_linked (k : List Nat) (v : ValueStruct) (xoff : Nat)
    (pA nA : List Nat) (s3 : SkipList) (i fuel : Nat)
    (hx1 : 1 ≤ xoff) (hx2 : xoff ≤ s3.arena.nodes.length)
    (hpv : ∀ j, j ≤ i → 1 ≤ pA.getD j 0 ∧ pA.getD j 0 ≤ s3.arena.nodes.length ∧
      pA.getD j 0 ≠ xoff)
    (htow : ∀ j, j ≤ i → (s3.nodeAt (pA.getD j 0)).tower.length = MAX_HEIGHT)
    (hi : i < MAX_HEIGHT)
    (hcas : s3.get_next_off (pA.getD i 0) i = nA.getD i 0 % 4294967296) :
    linkLoop k v xoff i (fuel + 1) (linkedState xoff pA nA s3 i) pA nA =
      LinkStep.linked (linkedState xoff pA nA s3 (i + 1)) pA nA := by
  have hnzF : (pA.getD i 0 = 0) = False := eq_false (by
    have h1 := (hpv i (Nat.le_refl i)).1
    omega)
  have hlen : (linkedState xoff pA nA s3 i).arena.nodes.length = s3.arena.nodes.length :=
    (linkedState_frame xoff pA nA s3 i).2.2.2.2
  have hx2T : xoff ≤ (linkedState xoff pA nA s3 i).arena.nodes.length := by
    rw [hlen]
    exact hx2
  have hTp : ((linkedState xoff pA nA s3 i).setNode xoff
      { key_offset := ((linkedState xoff pA nA s3 i).nodeAt xoff).key_offset,
        key_size := ((linkedState xoff pA nA s3 i).nodeAt xoff).key_size,
        height := ((linkedState xoff pA nA s3 i).nodeAt xoff).height,
        value := ((linkedState xoff pA nA s3 i).nodeAt xoff).value,
        tower := ((linkedState xoff pA nA s3 i).nodeAt xoff).tower.set i
          (nA.getD i 0 % 4294967296) }).nodeAt (pA.getD i 0) =
      (linkedState xoff pA nA s3 i).nodeAt (pA.getD i 0) := by
    rw [nodeAt_setNode _ xoff _ _ hx1 hx2T, if_neg (hpv i (Nat.le_refl i)).2.2]
  have hold := linkedState_next_old xoff pA nA s3 i hx1 hx2
    (fun j hj => hpv j (by omega)) (fun j hj => htow j (by omega)) (by omega)
    (pA.getD i 0) i (hpv i (Nat.le_refl i)).2.2
  rw [if_neg (by simp)] at hold
  have hcasT : ((((linkedState xoff pA nA s3 i).setNode xoff
      { key_offset := ((linkedState xoff pA nA s3 i).nodeAt xoff).key_offset,
        key_size := ((linkedState xoff pA nA s3 i).nodeAt xoff).key_size,
        height := ((linkedState xoff pA nA s3 i).nodeAt xoff).height,
        value := ((linkedState xoff pA nA s3 i).nodeAt xoff).value,
        tower := ((linkedState xoff pA nA s3 i).nodeAt xoff).tower.set i
          (nA.getD i 0 % 4294967296) }).nodeAt (pA.getD i 0)).tower.getD i 0 =
      nA.getD i 0 % 4294967296) = True := by
    rw [hTp]
    refine eq_true ?_
    show (linkedState xoff pA nA s3 i).get_next_off (pA.getD i 0) i = _
    rw [hold]
    exact hcas
  simp only [linkLoop, linkedState, linkStepState, hnzF, hcasT, if_true, if_false,
    ite_true, ite_false]

/-- At a level above the old list height the recorded prev is still null and
the recovery path panics: the splice from the head at that level returns no
next node, and next[i] = _next.unwrap() fails. -/
theorem linkLoop_panic_high (k : List Nat) (v : ValueStruct) (xoff : Nat)
    (pA nA : List Nat) (s3 : SkipList) (i fuel : Nat)
    (hz : pA.getD i 0 = 0) (hi2 : 2 ≤ i)
    (hnx : (linkedState xoff pA nA s3 i).get_next (linkedState xoff pA nA s3 i).head i = none) :
    linkLoop k v xoff i (fuel + 1) (linkedState xoff pA nA s3 i) pA nA = LinkStep.panic := by
  have hsp : (linkedState xoff pA nA s3 i).find_splice_for_level k
      (linkedState xoff pA nA s3 i).head i = ((linkedState xoff pA nA s3 i).head, none) := by
    unfold SkipList.find_splice_for_level
    exact findSpliceAux_stuck _ _ _ _ _ hnx
  have hzT : (pA.getD i 0 = 0) = True := eq_true hz
  have hleF : (i ≤ 1) = False := eq_false (by omega)
  simp only [linkLoop, hzT, hleF, hsp, if_true, if_false, ite_true, ite_false]

/-- When every level up to the target height links successfully, the outer
loop of _put returns the fully linked state. -/
theorem linkLevels_ok (k : List Nat) (v : ValueStruct) (xoff : Nat)
    (pA nA : List Nat) (s3 : SkipList) (h : Nat)
    (hx1 : 1 ≤ xoff) (hx2 : xoff ≤ s3.arena.nodes.length)
    (hpv : ∀ j, j < h → 1 ≤ pA.getD j 0 ∧ pA.getD j 0 ≤ s3.arena.nodes.length ∧
      pA.getD j 0 ≠ xoff)
    (htow : ∀ j, j < h → (s3.nodeAt (pA.getD j 0)).tower.length = MAX_HEIGHT)
    (hh : h ≤ MAX_HEIGHT)
    (hcas : ∀ j, j < h → s3.get_next_off (pA.getD j 0) j = nA.getD j 0 % 4294967296) :
    ∀ rem i, i + rem = h →
      linkLevels k v xoff rem i (linkedState xoff pA nA s3 i) pA nA =
        some (linkedState xoff pA nA s3 h) := by
  intro rem
  induction rem with
  | zero =>
    intro i hieq
    have hieq2 : i = h := by omega
    subst hieq2
    rfl
  | succ rem ih =>
    intro i hieq
    have hi : i < h := by omega
    have hstep := linkLoop_linked k v xoff pA nA s3 i
      ((linkedState xoff pA nA s3 i).walkFuel) hx1 hx2
      (fun j hj => hpv j (by omega)) (fun j hj => htow j (by omega)) (by omega)
      (hcas i hi)
    simp only [linkLevels]
    rw [hstep]
    show linkLevels k v xoff rem (i + 1) (linkedState xoff pA nA s3 (i + 1)) pA nA = _
    exact ih (i + 1) (by omega)

/-- When the target height exceeds the old list height by two or more, the
outer loop reaches the first level with a null recorded prev and panics. -/
theorem linkLevels_none (k : List Nat) (v : ValueStruct) (xoff : Nat)
    (pA nA : List Nat) (s3 : SkipList) (h LH : Nat)
    (hx1 : 1 ≤ xoff) (hx2 : xoff ≤ s3.arena.nodes.length)
    (hpv : ∀ j, j ≤ LH → 1 ≤ pA.getD j 0 ∧ pA.getD j 0 ≤ s3.arena.nodes.length ∧
      pA.getD j 0 ≠ xoff)
    (htow : ∀ j, j ≤ LH → (s3.nodeAt (pA.getD j 0)).tower.length = MAX_HEIGHT)
    (hcas : ∀ j, j ≤ LH → s3.get_next_off (pA.getD j 0) j = nA.getD j 0 % 4294967296)
    (hz : pA.getD (LH + 1) 0 = 0)
    (hhead : s3.head ≠ xoff)
    (hheadz : s3.get_next_off s3.head (LH + 1) = 0)
    (hLH1 : 1 ≤ LH) (hh : h ≤ MAX_HEIGHT) (htall : LH + 2 ≤ h) :
    ∀ rem i, i + rem = h → i ≤ LH + 1 →
      linkLevels k v xoff rem i (linkedState xoff pA nA s3 i) pA nA = none := by
  intro rem
  induction rem with
  | zero =>
    intro i hieq hile
    omega
  | succ rem ih =>
    intro i hieq hile
    by_cases hiLH : i ≤ LH
    · have hstep := linkLoop_linked k v xoff pA nA s3 i
        ((linkedState xoff pA nA s3 i).walkFuel) hx1 hx2
        (fun j hj => hpv j (by omega)) (fun j hj => htow j (by omega)) (by omega)
        (hcas i hiLH)
      simp only [linkLevels]
      rw [hstep]
      show linkLevels k v xoff rem (i + 1) (linkedState xoff pA nA s3 (i + 1)) pA nA = _
      exact ih (i + 1) (by omega) (by omega)
    · have hieq2 : i = LH + 1 := by omega
      subst hieq2
      have hTnext : (linkedState xoff pA nA s3 (LH + 1)).get_next_off
          (linkedState xoff pA nA s3 (LH + 1)).head (LH + 1) = 0 := by
        rw [(linkedState_frame xoff pA nA s3 (LH + 1)).1]
        rw [linkedState_next_old xoff pA nA s3 (LH + 1) hx1 hx2
          (fun j hj => hpv j (by omega)) (fun j hj => htow j (by omega)) (by omega)
          s3.head (LH + 1) hhead]
        rw [if_neg (by omega)]
        exact hheadz
      have hstep := linkLoop_panic_high k v xoff pA nA s3 (LH + 1)
        ((linkedState xoff pA nA s3 (LH + 1)).walkFuel) hz (by omega)
        (get_next_none _ _ _ hTnext)
      simp only [linkLevels]
      rw [hstep]

/-! ### Reconstructing the level-0 chain after the insertion -/

/-- The keys read through the arena are untouched by the linking writes. -/
theorem linkedState_key_of (xoff : Nat) (pA nA : List Nat) (s3 : SkipList) (i : Nat)
    (hx1 : 1 ≤ xoff) (hx2 : xoff ≤ s3.arena.nodes.length)
    (hpv : ∀ j, j < i → 1 ≤ pA.getD j 0 ∧ pA.getD j 0 ≤ s3.arena.nodes.length) :
    ∀ off, (linkedState xoff pA nA s3 i).key_of off = s3.key_of off := by
  intro off
  have hf := linkedState_fields xoff pA nA s3 i hx1 hx2 hpv off
  show ((linkedState xoff pA nA s3 i).arena.keys.getD
    (((linkedState xoff pA nA s3 i).nodeAt off).key_offset - 1) []).take
    ((linkedState xoff pA nA s3 i).nodeAt off).key_size = _
  rw [hf.1, hf.2.1, (linkedState_frame xoff pA nA s3 i).2.2.1]
  rfl

/-- A chain transfers to a state with the same level-0 links on its members. -/
theorem IsChain_congr {s t : SkipList}
    (hlen : s.arena.nodes.length ≤ t.arena.nodes.length) :
    ∀ {C : List Nat} {start : Nat}, IsChain s start C →
      (∀ o ∈ C, t.get_next_off o 0 = s.get_next_off o 0) → IsChain t start C := by
  intro C
  induction C with
  | nil => intro start h _; exact h
  | cons c rest ih =>
    intro start h hag
    refine ⟨h.1, validOff_mono hlen h.2.1, ?_⟩
    rw [hag c (List.mem_cons_self c rest)]
    exact ih h.2.2 (fun o ho => hag o (List.mem_cons_of_mem c ho))

/-- Splicing a new node right after `prev0` in the level-0 chain. -/
theorem IsChain_splice {s t : SkipList}
    (hlen : s.arena.nodes.length ≤ t.arena.nodes.length)
    (prev0 xoff : Nat) (hxv : validOff t xoff)
    (htp : t.get_next_off prev0 0 = xoff)
    (htx : t.get_next_off xoff 0 = s.get_next_off prev0 0) :
    ∀ (l1 : List Nat) (start : Nat) (l2 : List Nat),
      IsChain s start (l1 ++ prev0 :: l2) →
      (∀ o ∈ l1 ++ prev0 :: l2, o ≠ prev0 → t.get_next_off o 0 = s.get_next_off o 0) →
      prev0 ∉ l1 → prev0 ∉ l2 →
      IsChain t start (l1 ++ prev0 :: xoff :: l2) := by
  intro l1
  induction l1 with
  | nil =>
    intro start l2 hch hag _ hnl2
    refine ⟨hch.1, validOff_mono hlen hch.2.1, htp, hxv, ?_⟩
    rw [htx]
    exact IsChain_congr hlen hch.2.2
      (fun o ho => hag o (List.mem_cons_of_mem _ ho) (fun he => hnl2 (he ▸ ho)))
  | cons c t1 ih =>
    intro start l2 hch hag hnl1 hnl2
    have hcne : c ≠ prev0 := by
      intro he
      apply hnl1
      rw [← he]
      exact List.mem_cons_self c t1
    refine ⟨hch.1, validOff_mono hlen hch.2.1, ?_⟩
    rw [hag c (List.mem_cons_self _ _) hcne]
    exact ih (s.get_next_off c 0) l2 hch.2.2
      (fun o ho hne => hag o (List.mem_cons_of_mem c ho) hne)
      (fun hm => hnl1 (List.mem_cons_of_mem c hm)) hnl2

/-- Inserting an element between a sorted prefix and suffix keeps sortedness. -/
theorem pairwise_insert_between {α : Type} {R : α → α → Prop} {l1 l2 : List α} {p x : α}
    (hp : List.Pairwise R (l1 ++ p :: l2))
    (h1 : ∀ a ∈ l1 ++ [p], R a x)
    (h2 : ∀ b ∈ l2, R x b) :
    List.Pairwise R (l1 ++ p :: x :: l2) := by
  rw [List.pairwise_append] at hp ⊢
  obtain ⟨hp1, hp2, hcross⟩ := hp
  refine ⟨hp1, ?_, ?_⟩
  · rcases List.pairwise_cons.mp hp2 with ⟨hpl2, hl2⟩
    refine List.pairwise_cons.mpr ⟨?_, List.pairwise_cons.mpr ⟨h2, hl2⟩⟩
    intro b hb
    rcases List.mem_cons.mp hb with he | hb2
    · rw [he]
      exact h1 p (List.mem_append.mpr (Or.inr (List.mem_singleton_self p)))
    · exact hpl2 b hb2
  · intro a ha b hb
    rcases List.mem_cons.mp hb with he | hb2
    · rw [he]
      exact hcross a ha p (List.mem_cons_self p l2)
    · rcases List.mem_cons.mp hb2 with he2 | hb3
      · rw [he2]
        exact h1 a (List.mem_append.mpr (Or.inl ha))
      · exact hcross a ha b (List.mem_cons_of_mem p hb3)

/-- If the query key stands before the head of a sorted chain segment, it
stands before every member. -/
theorem key_lt_chain_of_head {s : SkipList} {k : List Nat} {l2 : List Nat} {start : Nat}
    (hch : IsChain s start l2) (hp : List.Pairwise (keyLt s) l2)
    (hstart : l2 = [] ∨ compareBytes k (s.key_of start) = Ordering.lt) :
    ∀ b ∈ l2, compareBytes k (s.key_of b) = Ordering.lt := by
  intro b hb
  cases l2 with
  | nil => simp at hb
  | cons c0 l3 =>
    rcases hstart with he | hlt
    · exact absurd he (by simp)
    · have hstart_eq : start = c0 := hch.1
      rw [hstart_eq] at hlt
      rcases List.mem_cons.mp hb with rfl | hb3
      · exact hlt
      · have hcb : keyLt s c0 b := (List.pairwise_cons.mp hp).1 b hb3
        exact compareBytes_lt_trans hlt hcb

/-- After a fresh-key put links all its levels, the resulting state has a
well-formed level-0 chain holding the new node. -/
theorem linked_chain (s : SkipList) (C : List Nat) (k : List Nat) (v : ValueStruct)
    (h : Nat) (pA nA : List Nat)
    (hC : ChainInv s C)
    (hko : ∀ off, validOff s off → 1 ≤ (s.nodeAt off).key_offset ∧
      (s.nodeAt off).key_offset ≤ s.arena.keys.length)
    (htl : ∀ off, validOff s off → (s.nodeAt off).tower.length = MAX_HEIGHT)
    (hheadv : validOff s s.head)
    (hk : k.length < 65536)
    (hb32 : s.arena.nodes.length + 1 < 4294967296)
    (hh : 1 ≤ h) (hhM : h ≤ MAX_HEIGHT)
    (props : ∀ j, j < h →
      onChain s C (pA.getD j 0) ∧ rankLtKey s (pA.getD j 0) k ∧
      s.get_next_off (pA.getD j 0) j = nA.getD j 0 ∧
      (nA.getD j 0 = 0 ∨ (nA.getD j 0 ∈ C ∧
        compareBytes k (s.key_of (nA.getD j 0)) = Ordering.lt))) :
    ∃ C2, ChainInv (linkedState (s.arena.nodes.length + 1) pA nA
        (allocState s k v h) h) C2 ∧ (s.arena.nodes.length + 1) ∈ C2 := by
  obtain ⟨hch, hp, hnh, hlinks, hhz⟩ := hC
  have hvalid : ∀ o ∈ C, validOff s o := IsChain_mem_valid hch
  have honb : ∀ j, j < h → 1 ≤ pA.getD j 0 ∧ pA.getD j 0 ≤ s.arena.nodes.length := by
    intro j hj
    rcases (props j hj).1 with he | hm
    · rw [he]
      exact ⟨hheadv.1, hheadv.2⟩
    · exact ⟨(hvalid _ hm).1, (hvalid _ hm).2⟩
  have hx1 : 1 ≤ s.arena.nodes.length + 1 := by omega
  have hAlen : (allocState s k v h).arena.nodes.length = s.arena.nodes.length + 1 :=
    allocState_nodes_length s k v h
  have hx2A : s.arena.nodes.length + 1 ≤ (allocState s k v h).arena.nodes.length := by
    rw [hAlen]
  have hpvA : ∀ j, j < h → 1 ≤ pA.getD j 0 ∧
      pA.getD j 0 ≤ (allocState s k v h).arena.nodes.length ∧
      pA.getD j 0 ≠ s.arena.nodes.length + 1 := by
    intro j hj
    have hb := honb j hj
    refine ⟨hb.1, by rw [hAlen]; omega, by omega⟩
  have hpvA2 : ∀ j, j < h → 1 ≤ pA.getD j 0 ∧
      pA.getD j 0 ≤ (allocState s k v h).arena.nodes.length :=
    fun j hj => ⟨(hpvA j hj).1, (hpvA j hj).2.1⟩
  have htowA : ∀ j, j < h →
      ((allocState s k v h).nodeAt (pA.getD j 0)).tower.length = MAX_HEIGHT := by
    intro j hj
    rw [allocState_nodeAt_old s k v h _ (honb j hj).2]
    exact htl _ ⟨(honb j hj).1, (honb j hj).2⟩
  have htlAx : ((allocState s k v h).nodeAt (s.arena.nodes.length + 1)).tower.length =
      MAX_HEIGHT := by
    rw [allocState_nodeAt_new]
    show (List.replicate MAX_HEIGHT 0).length = MAX_HEIGHT
    exact List.length_replicate _ _
  set T := linkedState (s.arena.nodes.length + 1) pA nA (allocState s k v h) h with hTdef
  have hfr := linkedState_frame (s.arena.nodes.length + 1) pA nA (allocState s k v h) h
  have hTlen : T.arena.nodes.length = s.arena.nodes.length + 1 := hfr.2.2.2.2.trans hAlen
  have hThead : T.head = s.head := hfr.1.trans (allocState_head s k v h)
  have hTheight : T.height = max s.height h := hfr.2.1.trans (allocState_height s k v h)
  have hkeyT := linkedState_key_of (s.arena.nodes.length + 1) pA nA (allocState s k v h) h
    hx1 hx2A hpvA2
  have hkeyold : ∀ o, validOff s o → T.key_of o = s.key_of o := by
    intro o hv
    exact (hkeyT o).trans (allocState_key_of_old s k v h o hv.2 (hko o hv).1 (hko o hv).2)
  have hkeyx : T.key_of (s.arena.nodes.length + 1) = k :=
    (hkeyT _).trans (allocState_key_of_new s k v h hk)
  have hnAb : ∀ j, j < h → nA.getD j 0 < 4294967296 := by
    intro j hj
    rcases (props j hj).2.2.2 with h0 | hm
    · omega
    · have h2 := (hvalid _ hm.1).2
      omega
  have hTx : ∀ L, L < h → T.get_next_off (s.arena.nodes.length + 1) L = nA.getD L 0 := by
    intro L hL
    have h2 := linkedState_next_new (s.arena.nodes.length + 1) pA nA (allocState s k v h) h
      hx1 hx2A hpvA htlAx hhM L
    rw [if_pos hL] at h2
    exact h2.trans (Nat.mod_eq_of_lt (hnAb L hL))
  have hTxz : ∀ L, h ≤ L → T.get_next_off (s.arena.nodes.length + 1) L = 0 := by
    intro L hL
    have h2 := linkedState_next_new (s.arena.nodes.length + 1) pA nA (allocState s k v h) h
      hx1 hx2A hpvA htlAx hhM L
    rw [if_neg (by omega)] at h2
    exact h2.trans (allocState_next_new s k v h L)
  have hTo : ∀ o, o ≤ s.arena.nodes.length → ∀ L,
      T.get_next_off o L = if L < h ∧ pA.getD L 0 = o then s.arena.nodes.length + 1
        else s.get_next_off o L := by
    intro o ho L
    have hne : o ≠ s.arena.nodes.length + 1 := by omega
    have h2 := linkedState_next_old (s.arena.nodes.length + 1) pA nA (allocState s k v h) h
      hx1 hx2A hpvA htowA hhM o L hne
    rw [h2]
    by_cases hcnd : L < h ∧ pA.getD L 0 = o
    · rw [if_pos hcnd, if_pos hcnd]
      exact Nat.mod_eq_of_lt hb32
    · rw [if_neg hcnd, if_neg hcnd]
      exact allocState_next_old s k v h o L ho
  have hxvT : validOff T (s.arena.nodes.length + 1) := ⟨by omega, by rw [hTlen]⟩
  have hkltT : ∀ a b, validOff s a → validOff s b → keyLt s a b → keyLt T a b := by
    intro a b hva hvb hab
    show compareBytes (T.key_of a) (T.key_of b) = Ordering.lt
    rw [hkeyold a hva, hkeyold b hvb]
    exact hab
  have hxne : s.arena.nodes.length + 1 ≠ s.head := by
    have h2 := hheadv.2
    omega
  have hp0 := props 0 (by omega)
  have hoff0 : s.get_next_off (pA.getD 0 0) 0 = nA.getD 0 0 := hp0.2.2.1
  have hLinksGen : ∀ C2 : List Nat, (∀ o, o ∈ C → o ∈ C2) →
      (∀ o, o ∈ C2 → o = s.arena.nodes.length + 1 ∨ o ∈ C) →
      (s.arena.nodes.length + 1) ∈ C2 → LinksOk T C2 := by
    intro C2 hmemf hmemb hxmem
    constructor
    · intro L
      rw [hThead, hTo s.head hheadv.2 L]
      by_cases hcnd : L < h ∧ pA.getD L 0 = s.head
      · rw [if_pos hcnd]
        exact Or.inr hxmem
      · rw [if_neg hcnd]
        rcases hlinks.1 L with h0 | hm
        · exact Or.inl h0
        · exact Or.inr (hmemf _ hm)
    · intro o ho L
      rcases hmemb o ho with hox | hoC
      · subst hox
        by_cases hL : L < h
        · rw [hTx L hL]
          rcases (props L hL).2.2.2 with h0 | hm2
          · exact Or.inl h0
          · refine Or.inr ⟨hmemf _ hm2.1, ?_⟩
            show compareBytes (T.key_of _) (T.key_of _) = Ordering.lt
            rw [hkeyx, hkeyold _ (hvalid _ hm2.1)]
            exact hm2.2
        · rw [hTxz L (by omega)]
          exact Or.inl rfl
      · rw [hTo o (hvalid o hoC).2 L]
        by_cases hcnd : L < h ∧ pA.getD L 0 = o
        · rw [if_pos hcnd]
          refine Or.inr ⟨hxmem, ?_⟩
          have hrk := (props L hcnd.1).2.1
          rw [hcnd.2] at hrk
          rcases hrk with hh2 | hlt
          · exact absurd hh2 (hnh o hoC)
          · show compareBytes (T.key_of o) (T.key_of _) = Ordering.lt
            rw [hkeyx, hkeyold o (hvalid o hoC)]
            exact hlt
        · rw [if_neg hcnd]
          rcases hlinks.2 o hoC L with h0 | hm2
          · exact Or.inl h0
          · exact Or.inr ⟨hmemf _ hm2.1,
              hkltT o _ (hvalid o hoC) (hvalid _ hm2.1) hm2.2⟩
  have hHighGen : ∀ C2 : List Nat,
      (∀ o, o ∈ C2 → o = s.arena.nodes.length + 1 ∨ o ∈ C) → HighZero T C2 := by
    intro C2 hmemb o ho L hL
    rw [hTheight] at hL
    rcases ho with he | hm
    · rw [he, hThead, hTo s.head hheadv.2 L, if_neg (fun hcnd => by omega)]
      exact hhz s.head (Or.inl rfl) L (by omega)
    · rcases hmemb o hm with hox | hoC
      · rw [hox]
        exact hTxz L (by omega)
      · rw [hTo o (hvalid o hoC).2 L, if_neg (fun hcnd => by omega)]
        exact hhz o (Or.inr hoC) L (by omega)
  have hneGen : ∀ C2 : List Nat,
      (∀ o, o ∈ C2 → o = s.arena.nodes.length + 1 ∨ o ∈ C) →
      ∀ o ∈ C2, o ≠ T.head := by
    intro C2 hmemb o ho
    rw [hThead]
    rcases hmemb o ho with hox | hoC
    · rw [hox]
      exact hxne
    · exact hnh o hoC
  have hpT : List.Pairwise (keyLt T) C := List.Pairwise.imp_of_mem
    (fun {a b} ha hb hr => hkltT a b (hvalid a ha) (hvalid b hb) hr) hp
  rcases hp0.1 with hcaseA | hcaseB
  · -- the new node becomes the first chain element
    have hmemb : ∀ o, o ∈ (s.arena.nodes.length + 1) :: C →
        o = s.arena.nodes.length + 1 ∨ o ∈ C := fun o ho => List.mem_cons.mp ho
    refine ⟨(s.arena.nodes.length + 1) :: C, ⟨?_, ?_, hneGen _ hmemb, ?_, hHighGen _ hmemb⟩,
      List.mem_cons_self _ _⟩
    · have hh0 : T.get_next_off T.head 0 = s.arena.nodes.length + 1 := by
        rw [hThead, hTo s.head hheadv.2 0, if_pos ⟨by omega, hcaseA⟩]
      refine ⟨hh0, hxvT, ?_⟩
      have hx0 : T.get_next_off (s.arena.nodes.length + 1) 0 = s.get_next_off s.head 0 := by
        rw [hTx 0 (by omega), ← hoff0, hcaseA]
      rw [hx0]
      refine IsChain_congr (by rw [hTlen]; omega) hch ?_
      intro o ho
      rw [hTo o (hvalid o ho).2 0,
        if_neg (fun hcnd => hnh o ho (hcnd.2.symm.trans hcaseA))]
    · refine List.pairwise_cons.mpr ⟨?_, hpT⟩
      intro b hb
      have hkb : compareBytes k (s.key_of b) = Ordering.lt := by
        refine key_lt_chain_of_head hch hp ?_ b hb
        cases hCc : C with
        | nil => exact Or.inl rfl
        | cons c0 rest =>
          right
          have hc0 : s.get_next_off s.head 0 = c0 := by
            rw [hCc] at hch
            exact hch.1
          rw [hc0]
          have hnA0 : nA.getD 0 0 = c0 := by
            rw [← hoff0, hcaseA, hc0]
          rcases hp0.2.2.2 with h0 | hm
          · exfalso
            have hv := hvalid c0 (by rw [hCc]; exact List.mem_cons_self _ _)
            rcases hv with ⟨hv1, _⟩
            omega
          · rw [← hnA0]
            exact hm.2
      show compareBytes (T.key_of _) (T.key_of b) = Ordering.lt
      rw [hkeyx, hkeyold b (hvalid b hb)]
      exact hkb
    · exact hLinksGen _ (fun o ho => List.mem_cons_of_mem _ ho) hmemb
        (List.mem_cons_self _ _)
  · -- the new node is spliced right after prev0 inside the chain
    obtain ⟨l1, l2, hsplit⟩ := chain_mem_split hcaseB
    have hnd : C.Nodup := chain_nodup hp
    have hndsp : (l1 ++ pA.getD 0 0 :: l2).Nodup := by rw [← hsplit]; exact hnd
    have hpndl1 : pA.getD 0 0 ∉ l1 := by
      rcases List.nodup_append.mp hndsp with ⟨_, _, hdisj⟩
      intro hmem
      exact hdisj hmem (List.mem_cons_self _ _)
    have hpndl2 : pA.getD 0 0 ∉ l2 := by
      rcases List.nodup_append.mp hndsp with ⟨_, hnd2, _⟩
      exact (List.nodup_cons.mp hnd2).1
    have hrk0 : compareBytes (s.key_of (pA.getD 0 0)) k = Ordering.lt := by
      rcases hp0.2.1 with hh2 | hlt
      · exact absurd hh2 (hnh _ hcaseB)
      · exact hlt
    have hmemf : ∀ o, o ∈ C →
        o ∈ l1 ++ pA.getD 0 0 :: (s.arena.nodes.length + 1) :: l2 := by
      intro o ho
      rw [hsplit] at ho
      rcases List.mem_append.mp ho with h1 | h2
      · exact List.mem_append.mpr (Or.inl h1)
      · rcases List.mem_cons.mp h2 with he | h3
        · rw [he]
          exact List.mem_append.mpr (Or.inr (List.mem_cons_self _ _))
        · exact List.mem_append.mpr
            (Or.inr (List.mem_cons_of_mem _ (List.mem_cons_of_mem _ h3)))
    have hmemb : ∀ o, o ∈ l1 ++ pA.getD 0 0 :: (s.arena.nodes.length + 1) :: l2 →
        o = s.arena.nodes.length + 1 ∨ o ∈ C := by
      intro o ho
      rcases List.mem_append.mp ho with h1 | h2
      · exact Or.inr (by rw [hsplit]; exact List.mem_append.mpr (Or.inl h1))
      · rcases List.mem_cons.mp h2 with he | h3
        · exact Or.inr (by rw [he]; exact hcaseB)
        · rcases List.mem_cons.mp h3 with he2 | h4
          · exact Or.inl he2
          · exact Or.inr (by
              rw [hsplit]
              exact List.mem_append.mpr (Or.inr (List.mem_cons_of_mem _ h4)))
    have hxmem : (s.arena.nodes.length + 1) ∈
        l1 ++ pA.getD 0 0 :: (s.arena.nodes.length + 1) :: l2 :=
      List.mem_append.mpr (Or.inr (List.mem_cons_of_mem _ (List.mem_cons_self _ _)))
    refine ⟨l1 ++ pA.getD 0 0 :: (s.arena.nodes.length + 1) :: l2,
      ⟨?_, ?_, hneGen _ hmemb, hLinksGen _ hmemf hmemb hxmem, hHighGen _ hmemb⟩, hxmem⟩
    · have hh0 : T.get_next_off T.head 0 = s.get_next_off s.head 0 := by
        rw [hThead, hTo s.head hheadv.2 0,
          if_neg (fun hcnd => hnh _ hcaseB hcnd.2)]
      rw [hh0]
      refine IsChain_splice (s := s) (t := T) (by rw [hTlen]; omega) (pA.getD 0 0)
        (s.arena.nodes.length + 1) hxvT ?_ ?_ l1 (s.get_next_off s.head 0) l2 ?_ ?_
        hpndl1 hpndl2
      · rw [hTo _ (hvalid _ hcaseB).2 0, if_pos ⟨by omega, rfl⟩]
      · rw [hTx 0 (by omega), ← hoff0]
      · rw [← hsplit]
        exact hch
      · intro o ho hne2
        have hov : validOff s o := hvalid o (by rw [hsplit]; exact ho)
        rw [hTo o hov.2 0, if_neg (fun hcnd => hne2 hcnd.2.symm)]
    · have hpTsp : List.Pairwise (keyLt T) (l1 ++ pA.getD 0 0 :: l2) := by
        rw [← hsplit]
        exact hpT
      refine pairwise_insert_between hpTsp ?_ ?_
      · intro a ha
        have haC : a ∈ C := by
          rw [hsplit]
          rcases List.mem_append.mp ha with h1 | h2
          · exact List.mem_append.mpr (Or.inl h1)
          · rw [List.mem_singleton.mp h2]
            exact List.mem_append.mpr (Or.inr (List.mem_cons_self _ _))
        have hak : compareBytes (s.key_of a) k = Ordering.lt := by
          rcases List.mem_append.mp ha with h1 | h2
          · have hap : keyLt s a (pA.getD 0 0) := by
              have hpsp : List.Pairwise (keyLt s) (l1 ++ pA.getD 0 0 :: l2) := by
                rw [← hsplit]
                exact hp
              exact (List.pairwise_append.mp hpsp).2.2 a h1 _ (List.mem_cons_self _ _)
            exact compareBytes_lt_trans hap hrk0
          · rw [List.mem_singleton.mp h2]
            exact hrk0
        show compareBytes (T.key_of a) (T.key_of _) = Ordering.lt
        rw [hkeyx, hkeyold a (hvalid a haC)]
        exact hak
      · intro b hb
        have hbC : b ∈ C := by
          rw [hsplit]
          exact List.mem_append.mpr (Or.inr (List.mem_cons_of_mem _ hb))
        have hchsp : IsChain s (s.get_next_off s.head 0) (l1 ++ pA.getD 0 0 :: l2) := by
          rw [← hsplit]
          exact hch
        have hdec : IsChain s (s.get_next_off (pA.getD 0 0) 0) l2 := IsChain_decomp hchsp
        have hpl2 : List.Pairwise (keyLt s) l2 := by
          have hpsp : List.Pairwise (keyLt s) (l1 ++ pA.getD 0 0 :: l2) := by
            rw [← hsplit]
            exact hp
          exact (List.pairwise_cons.mp (List.pairwise_append.mp hpsp).2.1).2
        have hkb : compareBytes k (s.key_of b) = Ordering.lt := by
          refine key_lt_chain_of_head hdec hpl2 ?_ b hb
          cases hl2c : l2 with
          | nil => exact Or.inl rfl
          | cons c0 l3 =>
            right
            have hc0 : s.get_next_off (pA.getD 0 0) 0 = c0 := by
              rw [hl2c] at hdec
              exact hdec.1
            rw [hc0]
            have hnA0 : nA.getD 0 0 = c0 := by
              rw [← hoff0, hc0]
            rcases hp0.2.2.2 with h0 | hm
            · exfalso
              have hv := hvalid c0 (by
                rw [hsplit, hl2c]
                exact List.mem_append.mpr
                  (Or.inr (List.mem_cons_of_mem _ (List.mem_cons_self _ _))))
              rcases hv with ⟨hv1, _⟩
              omega
            · rw [← hnA0]
              exact hm.2
        show compareBytes (T.key_of _) (T.key_of b) = Ordering.lt
        rw [hkeyx, hkeyold b (hvalid b hbC)]
        exact hkb

/-! ### Reducing putH along the two pass-1 outcomes -/

theorem putH_panic_eq (s : SkipList) (k : List Nat) (v : ValueStruct) (rng : List Nat)
    (hpan : putPass1 s k v s.height
      ((List.replicate (MAX_HEIGHT + 1) 0).set s.height s.head)
      (List.replicate (MAX_HEIGHT + 1) 0) = Pass1Res.panic) :
    s.putH k v rng = none := by
  simp only [SkipList.putH]
  rw [hpan]

theorem putH_cont_eq (s : SkipList) (k : List Nat) (v : ValueStruct) (rng : List Nat)
    (prev2 next2 : List Nat)
    (hcont : putPass1 s k v s.height
      ((List.replicate (MAX_HEIGHT + 1) 0).set s.height s.head)
      (List.replicate (MAX_HEIGHT + 1) 0) = Pass1Res.cont prev2 next2) :
    s.putH k v rng = linkLevels k v (s.arena.nodes.length + 1) (random_height rng) 0
      (allocState s k v (random_height rng)) prev2 next2 := by
  simp only [SkipList.putH]
  rw [hcont]
  rfl

theorem decode_encode_fst (a b : Nat) :
    (Node.decode_value (Node.encode_value a b)).1 = a % 4294967296 := by
  unfold Node.decode_value Node.encode_value
  omega

theorem decode_encode_snd (a b : Nat) :
    (Node.decode_value (Node.encode_value a b)).2 = b % 65536 := by
  unfold Node.decode_value Node.encode_value
  omega

/-- When the size argument is exactly the stored encoding's size, the
size-delimited view gives back the stored ValueStruct unchanged. -/
theorem get_val_exact (a : Arena) (w : ValueStruct) (off sz : Nat)
    (hw : a.vals.getD (off - 1) default = w) (hsz : sz = w.value.length + 10) :
    a.get_val off sz = w := by
  simp only [Arena.get_val]
  rw [hw, hsz, Nat.add_sub_cancel, List.take_length]

/-- A successful _put of a key shorter than 65536 bytes on an
invariant-satisfying state inserts it: the invariant is preserved, the arena
grew by one node and one value, and — provided the encoded value size
value.len() + 10 also fits the slot's u16 (otherwise the stored size wraps
and get materializes a truncated view) — get finds exactly the value put. -/
theorem putH_some_spec (s : SkipList) (k : List Nat) (v : ValueStruct) (rng : List Nat)
    (s2 : SkipList)
    (hInv : Inv s)
    (hk : k.length < 65536)
    (hb32 : s.arena.nodes.length + 1 < 4294967296)
    (hv32 : s.arena.vals.length + 1 < 4294967296)
    (hput : s.putH k v rng = some s2) :
    Inv s2 ∧ (v.value.length + 10 < 65536 → s2.get k = some v) ∧
      s2.arena.nodes.length = s.arena.nodes.length + 1 ∧
      s2.arena.vals.length = s.arena.vals.length + 1 := by
  obtain ⟨hhead1, hheadv, hheadkey, hh1, hh2, htl, hko, C, hCinv⟩ := hInv
  have hM : MAX_HEIGHT = 20 := rfl
  have hch := hCinv.1
  have hp := hCinv.2.1
  have hhz := hCinv.2.2.2.2
  have hvalid : ∀ o ∈ C, validOff s o := IsChain_mem_valid hch
  have h21 : ((List.replicate (MAX_HEIGHT + 1) (0 : Nat)).set s.height s.head).length =
      MAX_HEIGHT + 1 := by simp
  have h21b : (List.replicate (MAX_HEIGHT + 1) (0 : Nat)).length = MAX_HEIGHT + 1 := by simp
  have hlt21 : s.height < (List.replicate (MAX_HEIGHT + 1) (0 : Nat)).length := by
    rw [h21b]
    omega
  have hpinit : ((List.replicate (MAX_HEIGHT + 1) (0 : Nat)).set s.height s.head).getD
      s.height 0 = s.head := getD_set_self _ _ _ hlt21
  have hpzinit : ∀ j, j < s.height →
      ((List.replicate (MAX_HEIGHT + 1) (0 : Nat)).set s.height s.head).getD j 0 = 0 := by
    intro j hj
    rw [getD_set_ne _ _ _ _ (by omega)]
    exact getD_replicate_zero _ _
  by_cases hfresh : ∀ o ∈ C, s.key_of o ≠ k
  case neg =>
    push_neg at hfresh
    obtain ⟨u, hu, huk⟩ := hfresh
    have hpanic := pass1_panic_of_present hCinv k v hu huk s.height
      ((List.replicate (MAX_HEIGHT + 1) 0).set s.height s.head)
      (List.replicate (MAX_HEIGHT + 1) 0) hh1
      (by rw [hpinit]; exact Or.inl rfl)
      (by rw [hpinit]; exact Or.inl rfl)
      hpzinit h21 hh2
    rw [putH_panic_eq s k v rng hpanic] at hput
    exact absurd hput (by simp)
  case pos =>
    obtain ⟨prev2, next2, hrun, hl1, hl2, hkeep, hprops⟩ :=
      pass1_spec hCinv k v hfresh s.height
        ((List.replicate (MAX_HEIGHT + 1) 0).set s.height s.head)
        (List.replicate (MAX_HEIGHT + 1) 0) h21 h21b hh2
        (by rw [hpinit]; exact Or.inl rfl)
        (by rw [hpinit]; exact Or.inl rfl)
        hpzinit (fun j _ => getD_replicate_zero _ _)
    rw [putH_cont_eq s k v rng prev2 next2 hrun] at hput
    set RH := random_height rng with hRHdef
    have hRH1 : 1 ≤ RH := random_height_pos rng
    have hRHM : RH ≤ MAX_HEIGHT := random_height_le rng
    have hp2LH : prev2.getD s.height 0 = s.head := by
      rw [(hkeep s.height (Nat.le_refl _)).1]
      exact hpinit
    have hn2LH : next2.getD s.height 0 = 0 := by
      rw [(hkeep s.height (Nat.le_refl _)).2]
      exact getD_replicate_zero _ _
    have hp2hi : prev2.getD (s.height + 1) 0 = 0 := by
      rw [(hkeep (s.height + 1) (by omega)).1, getD_set_ne _ _ _ _ (by omega)]
      exact getD_replicate_zero _ _
    have propsAll : ∀ j, j ≤ s.height →
        onChain s C (prev2.getD j 0) ∧ rankLtKey s (prev2.getD j 0) k ∧
        s.get_next_off (prev2.getD j 0) j = next2.getD j 0 ∧
        (next2.getD j 0 = 0 ∨ (next2.getD j 0 ∈ C ∧
          compareBytes k (s.key_of (next2.getD j 0)) = Ordering.lt)) := by
      intro j hj
      rcases Nat.lt_or_ge j s.height with hlt | hge
      · exact hprops j hlt
      · have hje : j = s.height := by omega
        subst hje
        refine ⟨by rw [hp2LH]; exact Or.inl rfl, by rw [hp2LH]; exact Or.inl rfl, ?_,
          Or.inl hn2LH⟩
        rw [hp2LH, hn2LH]
        exact hhz s.head (Or.inl rfl) s.height (Nat.le_refl _)
    have honb : ∀ j, j ≤ s.height → 1 ≤ prev2.getD j 0 ∧
        prev2.getD j 0 ≤ s.arena.nodes.length := by
      intro j hj
      rcases (propsAll j hj).1 with he | hm
      · rw [he]
        exact ⟨hheadv.1, hheadv.2⟩
      · exact ⟨(hvalid _ hm).1, (hvalid _ hm).2⟩
    have hnb : ∀ j, j ≤ s.height → next2.getD j 0 ≤ s.arena.nodes.length := by
      intro j hj
      rcases (propsAll j hj).2.2.2 with h0 | hm
      · omega
      · exact (hvalid _ hm.1).2
    have hAlen : (allocState s k v RH).arena.nodes.length = s.arena.nodes.length + 1 :=
      allocState_nodes_length s k v RH
    have hpvA : ∀ j, j ≤ s.height → 1 ≤ prev2.getD j 0 ∧
        prev2.getD j 0 ≤ (allocState s k v RH).arena.nodes.length ∧
        prev2.getD j 0 ≠ s.arena.nodes.length + 1 := by
      intro j hj
      have hb := honb j hj
      exact ⟨hb.1, by rw [hAlen]; omega, by omega⟩
    have htowA : ∀ j, j ≤ s.height →
        ((allocState s k v RH).nodeAt (prev2.getD j 0)).tower.length = MAX_HEIGHT := by
      intro j hj
      rw [allocState_nodeAt_old s k v RH _ (honb j hj).2]
      exact htl _ ⟨(honb j hj).1, (honb j hj).2⟩
    have hcasA : ∀ j, j ≤ s.height →
        (allocState s k v RH).get_next_off (prev2.getD j 0) j =
          next2.getD j 0 % 4294967296 := by
      intro j hj
      rw [allocState_next_old s k v RH _ j (honb j hj).2, (propsAll j hj).2.2.1,
        Nat.mod_eq_of_lt (by have := hnb j hj; omega)]
    by_cases htall : RH ≤ s.height + 1
    · -- every level links; the final state is the fully linked one
      have hOK := linkLevels_ok k v (s.arena.nodes.length + 1) prev2 next2
        (allocState s k v RH) RH (by omega) hAlen.ge
        (fun j hj => hpvA j (by omega)) (fun j hj => htowA j (by omega)) hRHM
        (fun j hj => hcasA j (by omega)) RH 0 (by omega)
      have hs2some : some (linkedState (s.arena.nodes.length + 1) prev2 next2
          (allocState s k v RH) RH) = some s2 := hOK.symm.trans hput
      have hs2 : s2 = linkedState (s.arena.nodes.length + 1) prev2 next2
          (allocState s k v RH) RH := (Option.some.inj hs2some).symm
      subst hs2
      set T := linkedState (s.arena.nodes.length + 1) prev2 next2
        (allocState s k v RH) RH with hTset
      have hx2A : s.arena.nodes.length + 1 ≤ (allocState s k v RH).arena.nodes.length :=
        hAlen.ge
      have hpvA2 : ∀ j, j < RH → 1 ≤ prev2.getD j 0 ∧
          prev2.getD j 0 ≤ (allocState s k v RH).arena.nodes.length :=
        fun j hj => ⟨(hpvA j (by omega)).1, (hpvA j (by omega)).2.1⟩
      have hfr := linkedState_frame (s.arena.nodes.length + 1) prev2 next2
        (allocState s k v RH) RH
      have hTlen : T.arena.nodes.length = s.arena.nodes.length + 1 :=
        hfr.2.2.2.2.trans hAlen
      have hThead : T.head = s.head := hfr.1.trans (allocState_head s k v RH)
      have hTheight : T.height = max s.height RH :=
        hfr.2.1.trans (allocState_height s k v RH)
      have hTkeys : T.arena.keys = s.arena.keys ++ [k] :=
        hfr.2.2.1.trans (allocState_keys s k v RH)
      have hTvals : T.arena.vals = s.arena.vals ++ [v] :=
        hfr.2.2.2.1.trans (allocState_vals s k v RH)
      have hfldsT : ∀ off,
          (T.nodeAt off).key_offset = ((allocState s k v RH).nodeAt off).key_offset ∧
          (T.nodeAt off).key_size = ((allocState s k v RH).nodeAt off).key_size ∧
          (T.nodeAt off).value = ((allocState s k v RH).nodeAt off).value ∧
          (T.nodeAt off).height = ((allocState s k v RH).nodeAt off).height ∧
          (T.nodeAt off).tower.length = ((allocState s k v RH).nodeAt off).tower.length :=
        linkedState_fields (s.arena.nodes.length + 1) prev2 next2
          (allocState s k v RH) RH (by omega) hx2A hpvA2
      have hkeyT : ∀ off, T.key_of off = (allocState s k v RH).key_of off :=
        linkedState_key_of (s.arena.nodes.length + 1) prev2 next2
          (allocState s k v RH) RH (by omega) hx2A hpvA2
      have hkeyoldT : ∀ o, validOff s o → T.key_of o = s.key_of o := fun o hv =>
        (hkeyT o).trans (allocState_key_of_old s k v RH o hv.2 (hko o hv).1 (hko o hv).2)
      have hkeyxT : T.key_of (s.arena.nodes.length + 1) = k :=
        (hkeyT _).trans (allocState_key_of_new s k v RH hk)
      obtain ⟨C2, hChainT, hxmem⟩ := linked_chain s C k v RH prev2 next2 hCinv hko htl
        hheadv hk hb32 hRH1 hRHM (fun j hj => propsAll j (by omega))
      have hChainT2 : ChainInv T C2 := hChainT
      have hxmem2 : (s.arena.nodes.length + 1) ∈ C2 := hxmem
      refine ⟨⟨?_, ?_, ?_, ?_, ?_, ?_, ?_, C2, hChainT2⟩, ?_, ?_, ?_⟩
      · rw [hThead]
        exact hhead1
      · rw [hThead]
        exact validOff_mono (by rw [hTlen]; omega) hheadv
      · rw [hThead, hkeyoldT s.head hheadv]
        exact hheadkey
      · rw [hTheight]
        omega
      · rw [hTheight]
        omega
      · intro off hoff
        rw [(hfldsT off).2.2.2.2]
        have h2 := hoff.2
        rw [hTlen] at h2
        rcases Nat.lt_or_ge off (s.arena.nodes.length + 1) with hlt | hge
        · rw [allocState_nodeAt_old s k v RH off (by omega)]
          exact htl off ⟨hoff.1, by omega⟩
        · have he : off = s.arena.nodes.length + 1 := by omega
          rw [he, allocState_nodeAt_new]
          show (List.replicate MAX_HEIGHT 0).length = MAX_HEIGHT
          exact List.length_replicate _ _
      · intro off hoff
        rw [(hfldsT off).1, hTkeys]
        have h2 := hoff.2
        rw [hTlen] at h2
        rcases Nat.lt_or_ge off (s.arena.nodes.length + 1) with hlt | hge
        · rw [allocState_nodeAt_old s k v RH off (by omega)]
          have h3 := hko off ⟨hoff.1, by omega⟩
          refine ⟨h3.1, ?_⟩
          simp
          omega
        · have he : off = s.arena.nodes.length + 1 := by omega
          rw [he, allocState_nodeAt_new]
          show 1 ≤ s.arena.keys.length + 1 ∧
            s.arena.keys.length + 1 ≤ (s.arena.keys ++ [k]).length
          simp
      · -- get finds the freshly inserted node
        intro hvsz
        have hfn : T.find_near k false true = (some (s.arena.nodes.length + 1), true) := by
          show findNearAux T k false true T.walkFuel T.head (T.height - 1) =
            (some (s.arena.nodes.length + 1), true)
          refine findNear_found hChainT2 k _ hxmem2 hkeyxT T.walkFuel T.head
            (T.height - 1) (Or.inl rfl) (Or.inl rfl) ?_
          have hca : countAfter T C2 T.head = C2.length := by
            unfold countAfter
            rw [if_pos rfl]
          have hlen2 : C2.length ≤ T.arena.nodes.length :=
            chain_length_le hChainT2.1 hChainT2.2.1
          have hwf : T.walkFuel = (T.arena.nodes.length + 2) * (MAX_HEIGHT + 1) := rfl
          rw [hca, hwf, hTheight, hM]
          omega
        simp only [SkipList.get, hfn]
        have hval : (T.nodeAt (s.arena.nodes.length + 1)).value =
            Node.encode_value (s.arena.vals.length + 1) (v.value.length + 10) := by
          rw [(hfldsT _).2.2.1, allocState_nodeAt_new]
          rfl
        rw [hval, decode_encode_fst, decode_encode_snd, Nat.mod_eq_of_lt hv32,
          Nat.mod_eq_of_lt hvsz]
        rw [get_val_exact T.arena v (s.arena.vals.length + 1) (v.value.length + 10)
          (by rw [hTvals, Nat.add_sub_cancel]; exact getD_append_last _ _ _) rfl]
      · exact hTlen
      · rw [hTvals]
        simp
    · -- the drawn height exceeds the old list height by ≥ 2: linking panics
      have hfail := linkLevels_none k v (s.arena.nodes.length + 1) prev2 next2
        (allocState s k v RH) RH s.height (by omega) hAlen.ge
        hpvA htowA hcasA hp2hi
        (by rw [allocState_head]; have := hheadv.2; omega)
        (by
          rw [allocState_head, allocState_next_old s k v RH _ _ hheadv.2]
          exact hhz s.head (Or.inl rfl) (s.height + 1) (by omega))
        hh1 hRHM (by omega) RH 0 (by omega) (by omega)
      have hcontra : (none : Option SkipList) = some s2 := hfail.symm.trans hput
      exact absurd hcontra (by simp)

/-- A freshly created skiplist satisfies the invariant. -/
theorem Inv_new (cap : Nat) : Inv (SkipList.new cap) := by
  refine ⟨rfl, ⟨Nat.le_refl 1, Nat.le_refl 1⟩, rfl, Nat.le_refl 1,
    by show (1 : Nat) ≤ 20; omega, ?_, ?_, [], ?_, ?_, ?_, ⟨?_, ?_⟩, ?_⟩
  · intro off hv
    rcases hv with ⟨h1, h2⟩
    have hl : (SkipList.new cap).arena.nodes.length = 1 := rfl
    rw [hl] at h2
    have he : off = 1 := by omega
    rw [he]
    rfl
  · intro off hv
    rcases hv with ⟨h1, h2⟩
    have hl : (SkipList.new cap).arena.nodes.length = 1 := rfl
    rw [hl] at h2
    have he : off = 1 := by omega
    rw [he]
    exact ⟨Nat.le_refl 1, Nat.le_refl 1⟩
  · rfl
  · exact List.Pairwise.nil
  · intro o ho
    exact absurd ho (List.not_mem_nil o)
  · intro L
    exact Or.inl (getD_replicate_zero MAX_HEIGHT L)
  · intro o ho
    exact absurd ho (List.not_mem_nil o)
  · intro o ho L _
    rcases ho with he | hm
    · rw [he]
      exact getD_replicate_zero MAX_HEIGHT L
    · exact absurd hm (List.not_mem_nil o)

/-- Sequential puts of short keys from an invariant-satisfying state keep the
invariant, growing the node and value arenas by one entry per put. -/
theorem runPuts_inv (ops : List (List Nat × ValueStruct × List Nat)) :
    ∀ s s' : SkipList, Inv s →
      (∀ op ∈ ops, op.1.length < 65536) →
      s.arena.nodes.length + ops.length < 4294967296 →
      s.arena.vals.length + ops.length < 4294967296 →
      runPuts s ops = some s' →
      Inv s' ∧ s'.arena.nodes.length = s.arena.nodes.length + ops.length ∧
        s'.arena.vals.length = s.arena.vals.length + ops.length := by
  induction ops with
  | nil =>
    intro s s' hInv _ _ _ hrun
    have he : s = s' := Option.some.inj hrun
    subst he
    exact ⟨hInv, by simp, by simp⟩
  | cons op rest ih =>
    intro s s' hInv hkeys hn hv hrun
    obtain ⟨k, v, rng⟩ := op
    have hn2 : s.arena.nodes.length + (rest.length + 1) < 4294967296 := by
      simpa using hn
    have hv2 : s.arena.vals.length + (rest.length + 1) < 4294967296 := by
      simpa using hv
    simp only [runPuts] at hrun
    cases hput : s.putH k v rng with
    | none =>
      rw [hput] at hrun
      simp at hrun
    | some sMid =>
      rw [hput] at hrun
      have hrun2 : runPuts sMid rest = some s' := hrun
      have hspec := putH_some_spec s k v rng sMid hInv
        (hkeys (k, v, rng) (List.mem_cons_self _ _)) (by omega) (by omega) hput
      have ihres := ih sMid s' hspec.1
        (fun op2 hop2 => hkeys op2 (List.mem_cons_of_mem _ hop2))
        (by rw [hspec.2.2.1]; omega) (by rw [hspec.2.2.2]; omega) hrun2
      refine ⟨ihres.1, ?_, ?_⟩
      · have h3 := ihres.2.1
        rw [hspec.2.2.1] at h3
        simp only [List.length_cons]
        omega
      · have h3 := ihres.2.2
        rw [hspec.2.2.2] at h3
        simp only [List.length_cons]
        omega

/-- C6 (amended): on a skiplist built by a sequence of sequentially successful
puts of keys shorter than 65536 bytes (fewer than 2^31 of them, within the
32-bit arena offsets), a get(k) right after a put(k, v) that returned normally
yields exactly the ValueStruct v that was put — value bytes, meta, user-meta
and cas/version fields included — provided the encoded size of v
(value.len() + 10) also fits a u16.  The size restrictions are the amendment:
the claim as stated fails for keys of length ≥ 65536 (key_size is the key
length cast to u16) and for values of encoded size ≥ 65536 (the slot stores
value_size as u16, so get materializes a truncated view), and a put can also
panic instead of returning (C5). -/
theorem claim_C6_get_after_put (cap : Nat)
    (ops : List (List Nat × ValueStruct × List Nat))
    (k : List Nat) (v : ValueStruct) (rng : List Nat) (s s2 : SkipList)
    (hops : runPuts (SkipList.new cap) ops = some s)
    (hkeys : ∀ op ∈ ops, op.1.length < 65536)
    (hcnt : ops.length < 2147483648)
    (hk : k.length < 65536)
    (hvsz : v.value.length + 10 < 65536)
    (hput : s.putH k v rng = some s2) :
    s2.get k = some v := by
  have hnew : Inv (SkipList.new cap) := Inv_new cap
  have hlen1 : (SkipList.new cap).arena.nodes.length = 1 := rfl
  have hlen2 : (SkipList.new cap).arena.vals.length = 1 := rfl
  have hrp := runPuts_inv ops (SkipList.new cap) s hnew hkeys
    (by rw [hlen1]; omega) (by rw [hlen2]; omega) hops
  have h1 := hrp.2.1
  have h2 := hrp.2.2
  rw [hlen1] at h1
  rw [hlen2] at h2
  exact (putH_some_spec s k v rng s2 hrp.1 hk (by omega) (by omega) hput).2.1 hvsz

/-- Witness: on a fresh list, put("key1", v) succeeds and the claim instance
yields get("key1") = v. -/
theorem claim_C6_get_after_put_witness :
    ((SkipList.new 1024).putH [107, 101, 121, 49] ⟨55, 0, 60000, [118, 49]⟩
        [4294967295]).map
      (fun s2 => s2.get [107, 101, 121, 49]) =
      some (some ⟨55, 0, 60000, [118, 49]⟩) := by
  cases hput : (SkipList.new 1024).putH [107, 101, 121, 49] ⟨55, 0, 60000, [118, 49]⟩
      [4294967295] with
  | none => exact absurd hput (by decide)
  | some s2 =>
    have hg := claim_C6_get_after_put 1024 [] [107, 101, 121, 49]
      ⟨55, 0, 60000, [118, 49]⟩ [4294967295] (SkipList.new 1024) s2 rfl
      (by simp) (by decide) (by decide) (by decide) hput
    simp [hg]

end Skl
